import Mathlib

/-!
Verification development for the noe admission webhook and pod reconciler.

The Go sources are shallowly embedded: pure functions become Lean functions,
stateful code becomes explicit state passing, machine maps become association
lists, goroutine interleavings become a step relation on an explicit state
type, and fallible code returns Except.  Time (the Go time.Now calls) is
threaded as an explicit natural-number instant.  Network and Kubernetes
clients are passed in as function-valued parameters.
-/

namespace Noe


/-! ### String helpers

Go compares and sorts strings byte-wise.  Valid UTF-8 compares byte-wise in
the same order as code points, so we model Go string order as lexicographic
order on the character list. -/

/-- Lexicographic order on character lists, modelling Go byte-wise string
comparison used by slices.Sort. -/
def lexLe : List Char → List Char → Bool
  | [], _ => true
  | _ :: _, [] => false
  | a :: as, b :: bs => if a = b then lexLe as bs else decide (a < b)

/-- Lexicographic string comparison (Go string less-or-equal). -/
def strLe (a b : String) : Bool := lexLe a.toList b.toList

/-! ### Maps

Go maps from string to string are modelled as association lists where a key
occurs at most once.  Lookup returns the first binding, insertion replaces an
existing binding in place and otherwise appends. -/

/-- Association-list model of a Go map from string to string. -/
abbrev LabelMap := List (String × String)

/-- Map lookup, modelling Go map indexing with the comma-ok idiom. -/
def mapLookup (m : LabelMap) (k : String) : Option String :=
  (m.find? (fun kv => kv.1 = k)).map (·.2)

/-- Map insertion, modelling Go map assignment m[k] = v: an existing binding
is replaced, otherwise the binding is appended. -/
def mapInsert (m : LabelMap) (k v : String) : LabelMap :=
  if m.any (fun kv => kv.1 = k) then
    m.map (fun kv => if kv.1 = k then (k, v) else kv)
  else
    m ++ [(k, v)]

/-! ### Platform model (pkg/registry, type Platform) -/

/-- Platform is the (architecture, os, variant) triple reported by a registry
for a manifest, as in the registry package. -/
structure Platform where
  architecture : String
  os : String
  variant : String

deriving DecidableEq, Repr

/-! ### TTL cache (registry package, generic Cache)

The generic cache stores values with an expiry instant.  time.Now is modelled
as an explicit now parameter measured in nanoseconds; sync.Map becomes an
association list.  LoadOrCall is instrumented with a producerInvoked flag so
that theorems can speak about how often the miss function ran; in the source
the flag corresponds to whether the miss closure was entered. -/

/-- CacheEntry pairs a value with its expiry instant. -/
structure CacheEntry (T : Type) where
  value : T
  expiry : Nat

deriving DecidableEq, Repr

/-- Cache is the generic TTL cache: a map from string keys to entries plus
the configured entry TTL.  The per-key mutexes of the source serialise
concurrent misses and are modelled separately by the single-flight transition
system below; in this sequential model each operation is atomic. -/
structure Cache (T : Type) where
  cache : List (String × CacheEntry T)
  cacheDuration : Nat

deriving DecidableEq, Repr

/-- Load consults the map and treats an entry whose expiry is not strictly in
the future as absent, as in Cache.Load. -/
def Cache.Load {T} (c : Cache T) (now : Nat) (cacheKey : String) : Option T :=
  match (c.cache.find? (fun kv => kv.1 = cacheKey)).map (·.2) with
  | some cached => if now < cached.expiry then some cached.value else none
  | none => none

/-- Store writes an entry expiring cacheDuration after now, replacing any
binding for the key, as in Cache.Store without expiry-override mutations. -/
def Cache.Store {T} (c : Cache T) (now : Nat) (cacheKey : String) (value : T) : Cache T :=
  { c with cache :=
      (cacheKey, ⟨value, now + c.cacheDuration⟩) ::
        c.cache.filter (fun kv => kv.1 ≠ cacheKey) }

/-- Result of LoadOrCall: the returned value or error together with the
was-hit flag, the cache state after the call, and whether the miss producer
was invoked. -/
structure LoadOrCallResult (T E : Type) where
  result : Except E (T × Bool)
  state : Cache T
  producerInvoked : Bool

deriving Repr

/-- LoadOrCall re-checks the cache (under the per-key mutex in the source),
invokes the producer on a miss, stores only on success and returns errors
unchanged, as in Cache.LoadOrCall. -/
def Cache.LoadOrCall {T E} (c : Cache T) (now : Nat) (cacheKey : String)
    (produce : Except E T) : LoadOrCallResult T E :=
  match c.Load now cacheKey with
  | some entry => ⟨.ok (entry, true), c, false⟩
  | none =>
    match produce with
    | .error e => ⟨.error e, c, true⟩
    | .ok value => ⟨.ok (value, false), c.Store now cacheKey value, true⟩

/-- CachedRegistry wraps the plain registry client behind the TTL cache. -/
structure CachedRegistry where
  cache : Cache (List Platform)

deriving Repr

/-- ListArchs of the cached registry: builds the cache key from the pull
secret and the image and goes through LoadOrCall; registry errors surface and
are not cached.  The fire-and-forget CleanUp goroutine only removes expired
entries and is not modelled here.  The result carries the new state and
whether the underlying registry was invoked. -/
def CachedRegistry.ListArchs (cr : CachedRegistry) (now : Nat)
    (imagePullSecret image : String) (registry : Except String (List Platform)) :
    Except String (List Platform) × CachedRegistry × Bool :=
  let cacheKey := imagePullSecret ++ ":" ++ image
  let r := cr.cache.LoadOrCall now cacheKey registry
  match r.result with
  | .error e => (.error e, ⟨r.state⟩, r.producerInvoked)
  | .ok (archs, _) => (.ok archs, ⟨r.state⟩, r.producerInvoked)

/-! ### Pod spec model (the k8s.io/api/core/v1 fields used by pkg/arch/hook.go)

Go nil pointers and nil maps are modelled with Option; Go slices are
modelled with plain lists (ranging over a nil slice and over an empty slice
is indistinguishable for the code at hand). -/

/-- NodeSelectorRequirement is a key, operator, values triple. -/
structure NodeSelectorRequirement where
  key : String
  operator : String
  values : List String

deriving DecidableEq, Repr

/-- NodeSelectorTerm groups match expressions and match fields. -/
structure NodeSelectorTerm where
  matchExpressions : List NodeSelectorRequirement
  matchFields : List NodeSelectorRequirement

deriving DecidableEq, Repr

/-- NodeSelector wraps the list of node selector terms. -/
structure NodeSelector where
  nodeSelectorTerms : List NodeSelectorTerm

deriving DecidableEq, Repr

/-- NodeAffinity keeps only the required-during-scheduling field, the one the
code reads and writes. -/
structure NodeAffinity where
  requiredDuringSchedulingIgnoredDuringExecution : Option NodeSelector

deriving DecidableEq, Repr

/-- Affinity keeps only the node affinity field. -/
structure Affinity where
  nodeAffinity : Option NodeAffinity

deriving DecidableEq, Repr

/-- Container keeps only the image field. -/
structure Container where
  image : String

deriving DecidableEq, Repr

/-- PodSpec keeps the fields pkg/arch/hook.go and pkg/controllers/pod.go
read or write.  The image pull secret names are dropped: secret retrieval
goes through the external Kubernetes client and the resolver functions below
take the already-consolidated pull secret string as a parameter. -/
structure PodSpec where
  nodeName : String
  nodeSelector : Option LabelMap
  affinity : Option Affinity
  containers : List Container
  initContainers : List Container

deriving DecidableEq, Repr

/-- Lookup in the possibly-nil node selector map (indexing a nil Go map
yields the zero value and ok = false). -/
def PodSpec.nodeSelectorLookup (podSpec : PodSpec) (k : String) : Option String :=
  match podSpec.nodeSelector with
  | some m => mapLookup m k
  | none => none

/-- The kubernetes.io/arch label key, constant archKey in hook.go. -/
def archKey : String := "kubernetes.io/arch"

/-- GetContainerImages collects the non-empty images of the given container
lists in order, as in hook.go. -/
def GetContainerImages (containerLists : List (List Container)) : List String :=
  (containerLists.map (fun l => (l.filter (fun c => c.image ≠ "")).map (·.image))).flatten

/-- Check of one affinity term performed inside the loop of
PodSpecHasNodeArchitectureSelection: match expressions are inspected before
match fields, and the first hit returns its reason. -/
def termHasArchSelection (t : NodeSelectorTerm) : Option String :=
  if t.matchExpressions.any (fun exp => exp.key = archKey ∨ exp.key = "beta." ++ archKey) then
    some "node affinity label selector found"
  else if t.matchFields.any (fun exp => exp.key = "metadata.name") then
    some "node affinity field selector found"
  else
    none

/-- Loop over the affinity terms of PodSpecHasNodeArchitectureSelection. -/
def termsHaveArchSelection : List NodeSelectorTerm → String × Bool
  | [] => ("", false)
  | t :: ts =>
    match termHasArchSelection t with
    | some reason => (reason, true)
    | none => termsHaveArchSelection ts

/-- PodSpecHasNodeArchitectureSelection returns a skip reason and whether the
pod spec already carries an architecture selection: a node selector entry
under the beta or stable arch key, an affinity match expression on either
arch key, or a metadata.name match field. -/
def PodSpecHasNodeArchitectureSelection (podSpec : PodSpec) : String × Bool :=
  if (podSpec.nodeSelectorLookup ("beta." ++ archKey)).isSome then
    ("node-selector found", true)
  else if (podSpec.nodeSelectorLookup archKey).isSome then
    ("node-selector found", true)
  else
    match podSpec.affinity with
    | none => ("", false)
    | some aff =>
      match aff.nodeAffinity with
      | none => ("", false)
      | some na =>
        match na.requiredDuringSchedulingIgnoredDuringExecution with
        | none => ("", false)
        | some sel => termsHaveArchSelection sel.nodeSelectorTerms

/-- Appends a node selector term after filling every nil level of the
affinity chain, exactly the nil-filling sequence the source performs before
each append. -/
def PodSpec.appendAffinityTerm (podSpec : PodSpec) (t : NodeSelectorTerm) : PodSpec :=
  let aff := podSpec.affinity.getD ⟨none⟩
  let na := aff.nodeAffinity.getD ⟨none⟩
  let sel := na.requiredDuringSchedulingIgnoredDuringExecution.getD ⟨[]⟩
  { podSpec with affinity := some ⟨some ⟨some ⟨sel.nodeSelectorTerms ++ [t]⟩⟩⟩ }

/-- Handler keeps the configuration fields of pkg/arch/hook.go that the
placement functions read (client, metrics and decoder are external). -/
structure Handler where
  matchNodeLabels : List String
  preferredArchitecture : String
  schedulableArchitectures : List String
  systemOS : String

deriving Repr

/-- isArchSupported: an empty schedulable list admits every architecture,
otherwise membership decides. -/
def Handler.isArchSupported (h : Handler) (arch : String) : Bool :=
  if h.schedulableArchitectures.length = 0 then true
  else h.schedulableArchitectures.contains arch

/-- addPodNodeMatchingLabels walks the configured match-node-labels in order;
for each key present in the pod labels it inserts the value into the node
selector map when that map exists, and otherwise appends an affinity term
pinning the key to the value. -/
def Handler.addPodNodeMatchingLabels (h : Handler) (podLabels : LabelMap)
    (podSpec : PodSpec) : PodSpec :=
  h.matchNodeLabels.foldl
    (fun spec key =>
      match mapLookup podLabels key with
      | none => spec
      | some val =>
        match spec.nodeSelector with
        | none => spec.appendAffinityTerm ⟨[⟨key, "In", [val]⟩], []⟩
        | some m => { spec with nodeSelector := some (mapInsert m key val) })
    podSpec

/-- Set insertion for the map-of-empty-struct idiom: architecture sets are
modelled as duplicate-free lists in insertion order (only membership and the
final sort are observable). -/
def insertArch (s : List String) (a : String) : List String :=
  if s.contains a then s else s ++ [a]

/-- Per-image architecture set of updatePodSpec: platforms with a set OS
different from the configured system OS are skipped, unsupported
architectures are skipped, the rest are inserted. -/
def Handler.imageArchitectures (h : Handler) (platforms : List Platform) : List String :=
  platforms.foldl
    (fun acc p =>
      if p.os ≠ "" ∧ p.os ≠ h.systemOS then acc
      else if ¬ h.isArchSupported p.architecture then acc
      else insertArch acc p.architecture)
    []

/-- The incremental common-architecture loop of updatePodSpec.  The
accumulator is none while firstImage is still true; a registry error aborts
the whole computation (the source returns nil from updatePodSpec there).
delete-from-map during iteration becomes a membership filter. -/
def Handler.computeCommonArchs (h : Handler)
    (reg : String → String → Except String (List Platform))
    (imagePullSecret : String) :
    List String → Option (List String) → Except String (Option (List String))
  | [], acc => .ok acc
  | image :: rest, acc =>
    match reg imagePullSecret image with
    | .error e => .error e
    | .ok platforms =>
      let imageArchs := h.imageArchitectures platforms
      match acc with
      | none => h.computeCommonArchs reg imagePullSecret rest (some imageArchs)
      | some common =>
        h.computeCommonArchs reg imagePullSecret rest
          (some (common.filter (fun k => imageArchs.contains k)))

/-- keys collects the members of an architecture set and sorts them, as the
keys helper of hook.go does with slices.Sort. -/
def keys (set : List String) : List String :=
  List.insertionSort (fun a b => strLe a b = true) set

/-- Preferred-architecture resolution block of updatePodSpec: the pod label
value is discarded when non-empty but unsupported; when the result is empty
and a default architecture is configured, the default is taken and marked as
such.  Returns (preferredArch, preferredArchDefined, preferredArchIsDefault). -/
def Handler.resolvePreferredArch (h : Handler) (podLabels : LabelMap) :
    String × Bool × Bool :=
  let labelValue := mapLookup podLabels "arch.noe.adevinta.com/preferred"
  let preferredArch0 := labelValue.getD ""
  let preferredArchDefined0 := labelValue.isSome
  let preferredArch1 :=
    if preferredArch0 ≠ "" ∧ ¬ h.isArchSupported preferredArch0 then "" else preferredArch0
  if preferredArch1 = "" ∧ h.preferredArchitecture ≠ "" then
    (h.preferredArchitecture, true, true)
  else
    (preferredArch1, preferredArchDefined0, false)

/-- Outcome of updatePodSpec: nil, a warning-typed error, or a plain error
(the rejection). -/
inductive UpdateResult where
  | ok
  | warning (msg : String)
  | rejection (msg : String)

deriving DecidableEq, Repr

/-- updatePodSpec of pkg/arch/hook.go.  The registry is a function from pull
secret and image to platforms or an error; the consolidated pull secret is a
parameter (its retrieval goes through the external client).  The namespace
parameter is kept for signature fidelity; it only feeds metrics. -/
def Handler.updatePodSpec (h : Handler)
    (reg : String → String → Except String (List Platform))
    (_namespaceName : String) (podLabels : LabelMap) (imagePullSecret : String)
    (podSpec : PodSpec) : PodSpec × UpdateResult :=
  if podSpec.nodeName ≠ "" then (podSpec, .ok)
  else if (PodSpecHasNodeArchitectureSelection podSpec).2 then
    (h.addPodNodeMatchingLabels podLabels podSpec, .ok)
  else
    let pref := h.resolvePreferredArch podLabels
    let preferredArch := pref.1
    let preferredArchDefined := pref.2.1
    let preferredArchIsDefault := pref.2.2
    match h.computeCommonArchs reg imagePullSecret
        (GetContainerImages [podSpec.containers, podSpec.initContainers]) none with
    | .error _ => (podSpec, .ok)
    | .ok none => (h.addPodNodeMatchingLabels podLabels podSpec, .ok)
    | .ok (some commonArchitectures) =>
      if commonArchitectures.isEmpty then
        (h.addPodNodeMatchingLabels podLabels podSpec,
          .rejection "could not find a common image architecture across all containers")
      else if commonArchitectures.contains preferredArch ∧ preferredArchDefined then
        let m := podSpec.nodeSelector.getD []
        let spec := { podSpec with nodeSelector := some (mapInsert m archKey preferredArch) }
        (h.addPodNodeMatchingLabels podLabels spec, .ok)
      else
        let newAffinity : NodeSelectorTerm :=
          ⟨[⟨archKey, "In", keys commonArchitectures⟩], []⟩
        let spec := podSpec.appendAffinityTerm newAffinity
        if preferredArchDefined ∧ ¬ preferredArchIsDefault then
          (h.addPodNodeMatchingLabels podLabels spec,
            .warning ("could not select preferred arch: " ++ preferredArch))
        else
          (h.addPodNodeMatchingLabels podLabels spec, .ok)

/-! ### Pod reconciler (pkg/controllers/pod.go)

The Kubernetes client is abstracted: the pod read result and a node lookup
function are inputs.  Metrics and event emission are external side effects
and are not modelled; pod deletion is recorded in the outcome. -/

/-- Pod keeps the fields the reconciler reads: the spec, the status phase
and the status conditions as (type, status) pairs. -/
structure Pod where
  name : String
  spec : PodSpec
  phase : String
  conditions : List (String × String)

deriving Repr

/-- Node keeps only its labels. -/
structure Node where
  labels : LabelMap

deriving Repr

/-- podIsReady: the phase must be Running and some condition of type Ready
must have status True. -/
def podIsReady (pod : Pod) : Bool :=
  if pod.phase ≠ "Running" then false
  else pod.conditions.any (fun c => c.1 = "Ready" ∧ c.2 = "True")

/-- Result of the pod Get issued by Reconcile. -/
inductive GetPodResult where
  | found (pod : Pod)
  | notFound
  | getError (e : String)

deriving Repr

/-- Reconcile result: an empty result or the requeue-after-ten-seconds
result returned on errors. -/
inductive ReconcileResult where
  | emptyResult
  | requeueAfter10s

deriving DecidableEq, Repr

/-- Reconciler state: the podImages map (namespaced name to image list).
The imagePlatforms refcounts only feed metrics and are not modelled. -/
abbrev PodImagesState := List (String × List String)

/-- addToCache writes the image list under the namespaced name. -/
def addToCache (state : PodImagesState) (namespacedName : String)
    (podImages : List String) : PodImagesState :=
  (namespacedName, podImages) :: state.filter (fun kv => kv.1 ≠ namespacedName)

/-- isImageCached checks presence of the namespaced name. -/
def isImageCached (state : PodImagesState) (namespacedName : String) : Bool :=
  state.any (fun kv => kv.1 = namespacedName)

/-- deleteFromCaches drops the namespaced name (the per-image refcount
decrements only feed metrics). -/
def deleteFromCaches (state : PodImagesState) (namespacedName : String) : PodImagesState :=
  state.filter (fun kv => kv.1 ≠ namespacedName)

/-- Image loop of podScheduledOnMatchingNode: each registry error aborts;
otherwise, when both node labels are known and no platform of the image
matches them, the matching flag drops to false. -/
def scanPodImages (reg : String → String → Except String (List Platform))
    (imagePullSecret nodeOs nodeArch : String) :
    List String → Bool → Except String Bool
  | [], matching => .ok matching
  | image :: rest, matching =>
    match reg imagePullSecret image with
    | .error e => .error e
    | .ok platforms =>
      let hasMatchingPlatform :=
        platforms.any (fun p => p.os = nodeOs ∧ p.architecture = nodeArch)
      let matching2 :=
        if nodeOs ≠ "" ∧ nodeArch ≠ "" ∧ ¬ hasMatchingPlatform then false else matching
      scanPodImages reg imagePullSecret nodeOs nodeArch rest matching2

/-- podScheduledOnMatchingNode: reads the bound node labels (stable keys
with beta fallback) when the pod names a node, then scans every image
through the registry. -/
def podScheduledOnMatchingNode (reg : String → String → Except String (List Platform))
    (getNode : String → Except String Node) (imagePullSecret : String) (pod : Pod)
    (podImages : List String) : Except String Bool :=
  if pod.spec.nodeName ≠ "" then
    match getNode pod.spec.nodeName with
    | .error e => .error e
    | .ok node =>
      let nodeArch :=
        (mapLookup node.labels "kubernetes.io/arch").getD
          ((mapLookup node.labels "beta.kubernetes.io/arch").getD "")
      let nodeOs :=
        (mapLookup node.labels "kubernetes.io/os").getD
          ((mapLookup node.labels "beta.kubernetes.io/os").getD "")
      scanPodImages reg imagePullSecret nodeOs nodeArch podImages true
  else
    scanPodImages reg imagePullSecret "" "" podImages true

/-- Outcome of one reconciliation: the returned result, whether the pod
delete call was made, and the new podImages state. -/
structure ReconcileOutcome where
  result : ReconcileResult
  podDeleted : Bool
  state : PodImagesState

deriving Repr

/-- Reconcile of PodReconciler: requeue with backoff on get errors, cache
cleanup on not-found, skip for processed or ready pods, requeue with backoff
when podScheduledOnMatchingNode fails (registry or node read error), and
deletion only for a mis-placed pod without its own architecture selection. -/
def Reconcile (reg : String → String → Except String (List Platform))
    (getNode : String → Except String Node) (imagePullSecret : String)
    (getPod : GetPodResult) (namespacedName : String) (state : PodImagesState) :
    ReconcileOutcome :=
  match getPod with
  | .getError _ => ⟨.requeueAfter10s, false, state⟩
  | .notFound => ⟨.emptyResult, false, deleteFromCaches state namespacedName⟩
  | .found pod =>
    if isImageCached state namespacedName ∨ podIsReady pod then
      ⟨.emptyResult, false, state⟩
    else
      let podImages := GetContainerImages [pod.spec.initContainers, pod.spec.containers]
      match podScheduledOnMatchingNode reg getNode imagePullSecret pod podImages with
      | .error _ => ⟨.requeueAfter10s, false, state⟩
      | .ok matching =>
        let state2 := addToCache state namespacedName podImages
        if matching then ⟨.emptyResult, false, state2⟩
        else if (PodSpecHasNodeArchitectureSelection pod.spec).2 then
          ⟨.emptyResult, false, state2⟩
        else
          ⟨.emptyResult, true, state2⟩

/-! ### Plain registry client (registry package, PlainRegistry)

The HTTP world is abstracted to a fetch function from an authentication
token and a manifest reference (tag or digest) to a response or a transport
error.  Response bodies are carried in parsed form; a body of none models an
undecodable body.  URL construction, accept headers and the docker.io host
rewrite only shape the request and are absorbed into the fetch function. -/

/-- AuthenticationToken as in the registry package (the source reference is
dropped). -/
structure AuthenticationToken where
  kind : String
  token : String

deriving DecidableEq, Repr

/-- Parsed manifest-list entry: a platform and the digest of the pointed
manifest. -/
structure ManifestRef where
  platform : Platform
  digest : String

deriving DecidableEq, Repr

/-- Parsed manifest response body covering both shapes the client decodes:
the architecture field of a single manifest and the manifests list of a
manifest list or OCI index. -/
structure ManifestBody where
  architecture : String
  manifests : List ManifestRef

deriving DecidableEq, Repr

/-- HTTP response: status code, content type header and the decoded body
(none when the body does not decode). -/
structure HttpResponse where
  statusCode : Nat
  contentType : String
  body : Option ManifestBody

deriving DecidableEq, Repr

/-- Transport abstraction: token and manifest reference to response or
transport error. -/
abbrev Fetch := AuthenticationToken → String → Except String HttpResponse

/-- Errors of the plain registry client, separated by origin so that
theorems can tell which branch produced them. -/
inductive RegError where
  | transport (e : String)
  | unexpectedStatus (code : Nat)
  | decodeFailure
  | pointedManifestStatus (code : Nat)
  | noCandidates

deriving DecidableEq, Repr

/-- getImageManifest: a transport error propagates, and any status other
than 200 becomes the unexpected-status error with a nil response. -/
def getImageManifest (fetch : Fetch) (auth : AuthenticationToken) (ref : String) :
    Except RegError HttpResponse :=
  match fetch auth ref with
  | .error e => .error (.transport e)
  | .ok resp =>
    if resp.statusCode ≠ 200 then .error (.unexpectedStatus resp.statusCode)
    else .ok resp

/-- Descriptor verification loop of listArchsWithAuth: each pointed manifest
is fetched through getImageManifest; an error fails the attempt; afterwards
the source inspects the status code, skipping unknown architectures and 404
and failing on other codes.  Because getImageManifest already rejects every
non-200 response, the two non-200 branches below are unreachable; they are
embedded nevertheless, statement for statement. -/
def verifyManifests (fetch : Fetch) (auth : AuthenticationToken) :
    List ManifestRef → List Platform → Except RegError (List Platform)
  | [], platforms => .ok platforms
  | manifest :: rest, platforms =>
    match getImageManifest fetch auth manifest.digest with
    | .error e => .error e
    | .ok resp =>
      if resp.statusCode = 200 then
        if manifest.platform.architecture = "unknown" then
          verifyManifests fetch auth rest platforms
        else
          verifyManifests fetch auth rest (platforms ++ [manifest.platform])
      else if resp.statusCode = 404 then
        verifyManifests fetch auth rest platforms
      else
        .error (.pointedManifestStatus resp.statusCode)

/-- listArchsWithAuth: fetches the top manifest, decodes it, and dispatches
on the content type: manifest lists and OCI indexes go through descriptor
verification, any other content type takes the single-manifest branch that
returns the architecture field as the sole platform when non-empty. -/
def listArchsWithAuth (fetch : Fetch) (auth : AuthenticationToken) (tagRef : String) :
    Except RegError (List Platform) :=
  match getImageManifest fetch auth tagRef with
  | .error e => .error e
  | .ok resp =>
    match resp.body with
    | none => .error .decodeFailure
    | some response =>
      if resp.contentType = "application/vnd.docker.distribution.manifest.list.v2+json"
          ∨ resp.contentType = "application/vnd.oci.image.index.v1+json" then
        verifyManifests fetch auth response.manifests []
      else
        if response.architecture ≠ "" then
          .ok [⟨response.architecture, "", ""⟩]
        else
          .ok []

/-- Candidate loop of ListArchs: each token from the authenticator channel
is tried in order; a failure records the last error and continues; a
successful empty list is replaced by the default linux amd64 platform; after
the channel closes the last error, or the unable-to-find message, is
returned. -/
def listArchsCandidates (fetch : Fetch) (tagRef : String) :
    List AuthenticationToken → Option RegError → Except RegError (List Platform)
  | [], some e => .error e
  | [], none => .error .noCandidates
  | auth :: rest, _lastErr =>
    match listArchsWithAuth fetch auth tagRef with
    | .error e => listArchsCandidates fetch tagRef rest (some e)
    | .ok platforms =>
      if platforms.isEmpty then .ok [⟨"amd64", "linux", ""⟩]
      else .ok platforms

/-- ListArchs of PlainRegistry over the abstracted transport: the
authenticator chain is the list of candidate tokens in channel order. -/
def ListArchs (fetch : Fetch) (candidates : List AuthenticationToken)
    (tagRef : String) : Except RegError (List Platform) :=
  listArchsCandidates fetch tagRef candidates none

/-! ### Shell glob matching (Go standard library path/filepath.Match)

imageMatchesLoginPattern delegates host matching to filepath.Match of the Go
standard library (an external collaborator of this repository); the matcher
is embedded here following match.go of that library on Linux (separator is
the slash, backslash escaping enabled), at rune granularity.  A result of
none models ErrBadPattern.  The recursions of match.go strictly shorten the
pattern or the consumed chunk on every iteration, so each loop is embedded
structurally over a fuel bounded by the corresponding length plus one; the
fuel-exhaustion branches are unreachable for those bounds. -/

/-- Leading-star consumption of scanChunk. -/
def dropStars : List Char → List Char
  | '*' :: p => dropStars p
  | p => p

/-- Chunk scan of scanChunk: copies characters until an unbracketed star,
skipping the character after a backslash and tracking bracket state. -/
def scanChunkBody : List Char → Bool → List Char × List Char
  | [], _ => ([], [])
  | c :: rest, inrange =>
    if c = '\\' then
      match rest with
      | c2 :: rest2 =>
        let pr := scanChunkBody rest2 inrange
        (c :: c2 :: pr.1, pr.2)
      | [] => ([c], [])
    else if c = '[' then
      let pr := scanChunkBody rest true
      (c :: pr.1, pr.2)
    else if c = ']' then
      let pr := scanChunkBody rest false
      (c :: pr.1, pr.2)
    else if c = '*' ∧ inrange = false then
      ([], c :: rest)
    else
      let pr := scanChunkBody rest inrange
      (c :: pr.1, pr.2)

/-- scanChunk splits the pattern into a leading-star flag, the chunk up to
the next unbracketed star, and the remainder. -/
def scanChunk (pattern : List Char) : Bool × List Char × List Char :=
  let star := match pattern with | '*' :: _ => true | _ => false
  let pr := scanChunkBody (dropStars pattern) false
  (star, pr.1, pr.2)

/-- getEsc reads one possibly-escaped character of a bracket class; none
models ErrBadPattern (empty input, a dash or closing bracket head, a
trailing backslash, or a class that would end right after the character). -/
def getEsc : List Char → Option (Char × List Char)
  | [] => none
  | '-' :: _ => none
  | ']' :: _ => none
  | '\\' :: rest =>
    match rest with
    | [] => none
    | r :: rest2 => if rest2 = [] then none else some (r, rest2)
  | c :: rest => if rest = [] then none else some (c, rest)

/-- Range loop of the bracket-class case of matchChunk: closes on a bracket
once a range was read, otherwise reads a lo (and, after a dash, a hi) and
accumulates whether the examined character falls in some range. -/
def bracketRangesF (r : Char) : Nat → List Char → Bool → Nat → Option (Bool × List Char)
  | 0, _, _, _ => none
  | fuel + 1, chunk, m, nrange =>
    match chunk with
    | ']' :: rest2 =>
      if nrange > 0 then some (m, rest2) else none
    | _ =>
      match getEsc chunk with
      | none => none
      | some (lo, chunk2) =>
        match chunk2 with
        | '-' :: chunk3 =>
          match getEsc chunk3 with
          | none => none
          | some (hi, chunk4) =>
            bracketRangesF r fuel chunk4 (m || decide (lo ≤ r ∧ r ≤ hi)) (nrange + 1)
        | _ => bracketRangesF r fuel chunk2 (m || decide (lo ≤ r ∧ r ≤ lo)) (nrange + 1)

/-- matchChunk of match.go: consumes a chunk against the head of the name,
carrying the failed flag so that pattern syntax keeps being checked after a
mismatch.  Returns none for ErrBadPattern, some none for a plain mismatch
and some (some t) for a match leaving the rest t of the name. -/
def matchChunkF : Nat → List Char → List Char → Bool → Option (Option (List Char))
  | _, [], s, failed => if failed then some none else some (some s)
  | 0, _ :: _, _, _ => none
  | fuel + 1, c :: chunkRest, s0, failed0 =>
    let failed := if ¬ failed0 ∧ s0 = [] then true else failed0
    if c = '[' then
      let r := if ¬ failed then s0.headD (Char.ofNat 0) else Char.ofNat 0
      let s := if ¬ failed then s0.tail else s0
      let negres : Bool × List Char :=
        match chunkRest with
        | '^' :: cr => (true, cr)
        | _ => (false, chunkRest)
      match bracketRangesF r (negres.2.length + 1) negres.2 false 0 with
      | none => none
      | some (m, chunk3) =>
        let failed2 := if m = negres.1 then true else failed
        matchChunkF fuel chunk3 s failed2
    else if c = '?' then
      let failed2 := if ¬ failed ∧ s0.headD (Char.ofNat 0) = '/' then true else failed
      let s := if ¬ failed then s0.tail else s0
      matchChunkF fuel chunkRest s failed2
    else if c = '\\' then
      match chunkRest with
      | [] => none
      | c2 :: chunkRest2 =>
        let failed2 := if ¬ failed ∧ s0.headD (Char.ofNat 0) ≠ c2 then true else failed
        let s := if ¬ failed then s0.tail else s0
        matchChunkF fuel chunkRest2 s failed2
    else
      let failed2 := if ¬ failed ∧ s0.headD (Char.ofNat 0) ≠ c then true else failed
      let s := if ¬ failed then s0.tail else s0
      matchChunkF fuel chunkRest s failed2

/-- Outcome of the star-skip loop of Match. -/
inductive StarScanResult where
  | badPattern
  | exhausted
  | continueWith (t : List Char)

deriving DecidableEq, Repr

/-- Star-skip loop of Match: tries the chunk at every skip position of the
name up to a separator; a match that would leave residue after the last
chunk keeps scanning. -/
def starScan (chunk rest : List Char) : List Char → StarScanResult
  | [] => .exhausted
  | c :: cs =>
    if c = '/' then .exhausted
    else
      match matchChunkF (chunk.length + 1) chunk cs false with
      | none => .badPattern
      | some (some t) =>
        if rest = [] ∧ t ≠ [] then starScan chunk rest cs
        else .continueWith t
      | some none => starScan chunk rest cs

/-- Trailing syntax check of Match run before returning a mismatch: every
remaining chunk must parse against the empty name. -/
def checkRemainderValidF : Nat → List Char → Option Bool
  | _, [] => some false
  | 0, _ :: _ => none
  | fuel + 1, pattern =>
    let sc := scanChunk pattern
    match matchChunkF (sc.2.1.length + 1) sc.2.1 [] false with
    | none => none
    | some _ => checkRemainderValidF fuel sc.2.2

/-- Main loop of Match over scanned chunks. -/
def goMatchF : Nat → List Char → List Char → Option Bool
  | _, [], name => some (decide (name = []))
  | 0, _ :: _, _ => none
  | fuel + 1, c :: ps, name =>
    let sc := scanChunk (c :: ps)
    let star := sc.1
    let chunk := sc.2.1
    let rest := sc.2.2
    if star ∧ chunk = [] then
      some (name.all (fun ch => decide (ch ≠ '/')))
    else
      match matchChunkF (chunk.length + 1) chunk name false with
      | none => none
      | some (some t) =>
        if t = [] ∨ rest ≠ [] then goMatchF fuel rest t
        else if star then
          match starScan chunk rest name with
          | .badPattern => none
          | .exhausted => checkRemainderValidF (rest.length + 1) rest
          | .continueWith t2 => goMatchF fuel rest t2
        else checkRemainderValidF (rest.length + 1) rest
      | some none =>
        if star then
          match starScan chunk rest name with
          | .badPattern => none
          | .exhausted => checkRemainderValidF (rest.length + 1) rest
          | .continueWith t2 => goMatchF fuel rest t2
        else checkRemainderValidF (rest.length + 1) rest

/-- filepath.Match: some matched on success, none for ErrBadPattern. -/
def filepathMatch (pattern name : List Char) : Option Bool :=
  goMatchF (pattern.length + 1) pattern name

/-! ### Kubelet login-pattern matching (pkg/registry/kubelet_credentials.go) -/

/-- Go strings.Split with a one-character separator. -/
def goSplitChars (sep : Char) : List Char → List (List Char)
  | [] => [[]]
  | c :: rest =>
    if c = sep then [] :: goSplitChars sep rest
    else
      match goSplitChars sep rest with
      | s :: ss => (c :: s) :: ss
      | [] => [[c]]

/-- imageMatchesLoginPattern translated statement for statement: the pattern
is split on every slash, the part before the first slash on every colon; the
host glob goes through filepath.Match against the registry up to its first
colon (a pattern error yields false); on a host match, a non-empty pattern
port must equal the registry segment after its first colon, and with a
non-empty pattern path component the function returns false when that
component is a prefix of the image. -/
def imageMatchesLoginPattern (registry image pattern : List Char) : Bool :=
  let regPath := goSplitChars '/' pattern
  let matchReg := regPath.headD []
  let matchPath := ((regPath.drop 1).headD [])
  let matchHostPort := goSplitChars ':' matchReg
  let matchHost := matchHostPort.headD []
  let matchPort := ((matchHostPort.drop 1).headD [])
  match filepathMatch matchHost ((goSplitChars ':' registry).headD []) with
  | none => false
  | some matched =>
    if matched then
      let regHostPort := goSplitChars ':' registry
      if matchPort ≠ [] ∧ (regHostPort.length < 2 ∨ (regHostPort.drop 1).headD [] ≠ matchPort) then
        false
      else if matchPath ≠ [] ∧ matchPath.isPrefixOf image then
        false
      else
        true
    else
      false

/-- String-level wrapper of imageMatchesLoginPattern. -/
def imageMatchesLoginPatternStr (registry image pattern : String) : Bool :=
  imageMatchesLoginPattern registry.toList image.toList pattern.toList

/-- Break a character list at the first occurrence of the separator,
returning the part before it and, when the separator occurs, the part after
it. -/
def splitFirst (sep : Char) : List Char → List Char × Option (List Char)
  | [] => ([], none)
  | c :: rest =>
    if c = sep then ([], some rest)
    else
      let pr := splitFirst sep rest
      (c :: pr.1, pr.2)

/-! ### Single-flight transition system (Cache.LoadOrCall under concurrency)

Concurrent callers of LoadOrCall on one key are modelled as threads of an
interleaved transition system.  Each thread executes the statements of
LoadOrCall in order: acquire the per-key mutex, load, on a miss invoke the
producer and store, release the mutex (the deferred unlock).  The mutex is
an optional owner, the sync.Map entry for the key is an optional value, and
load and store are atomic as they are for sync.Map.  The scenario fixes one
key, a cold cache, a positive TTL and a producer that succeeds with a fixed
value, so entries never expire during the episode and an invocation counter
records how often the producer ran. -/

/-- Program counter of one LoadOrCall caller. -/
inductive FlightPhase (V : Type) where
  | beforeLock
  | beforeLoad
  | loadedHit (v : V)
  | missed
  | produced (v : V)
  | stored (v : V)
  | done (v : V) (wasHit : Bool)

deriving DecidableEq

/-- Critical-section phases: those between a successful Lock and the
deferred Unlock. -/
def FlightPhase.isCritical {V : Type} : FlightPhase V → Bool
  | .beforeLock => false
  | .done _ _ => false
  | _ => true

/-- Phases a thread only reaches after invoking the producer. -/
def FlightPhase.isPastProduce {V : Type} : FlightPhase V → Bool
  | .produced _ => true
  | .stored _ => true
  | .done _ false => true
  | _ => false

/-- Phases a thread only reaches after observing a cache miss. -/
def FlightPhase.isMissRegion {V : Type} : FlightPhase V → Bool
  | .missed => true
  | .produced _ => true
  | .stored _ => true
  | .done _ false => true
  | _ => false

/-- Phases a thread only reaches after its own Store took effect. -/
def FlightPhase.isStoredRegion {V : Type} : FlightPhase V → Bool
  | .stored _ => true
  | .done _ false => true
  | _ => false

/-- Shared state of the interleaving: per-thread phases, the mutex owner,
the cache entry for the key, and the producer invocation count. -/
structure FlightState (n : Nat) (V : Type) where
  threads : Fin n → FlightPhase V
  lock : Option (Fin n)
  cache : Option V
  invocations : Nat

/-- Initial state: every caller before the mutex, lock free, cold cache. -/
def initFlightState (n : Nat) (V : Type) : FlightState n V :=
  ⟨fun _ => .beforeLock, none, none, 0⟩

/-- One interleaving step: some thread executes its next LoadOrCall
statement. -/
inductive FlightStep (n : Nat) {V : Type} (produce : V) :
    FlightState n V → FlightState n V → Prop where
  | lockStep (s : FlightState n V) (i : Fin n) :
      s.threads i = .beforeLock → s.lock = none →
      FlightStep n produce s
        ⟨Function.update s.threads i .beforeLoad, some i, s.cache, s.invocations⟩
  | loadHit (s : FlightState n V) (i : Fin n) (v : V) :
      s.threads i = .beforeLoad → s.cache = some v →
      FlightStep n produce s
        ⟨Function.update s.threads i (.loadedHit v), s.lock, s.cache, s.invocations⟩
  | loadMiss (s : FlightState n V) (i : Fin n) :
      s.threads i = .beforeLoad → s.cache = none →
      FlightStep n produce s
        ⟨Function.update s.threads i .missed, s.lock, s.cache, s.invocations⟩
  | produceStep (s : FlightState n V) (i : Fin n) :
      s.threads i = .missed →
      FlightStep n produce s
        ⟨Function.update s.threads i (.produced produce), s.lock, s.cache, s.invocations + 1⟩
  | storeStep (s : FlightState n V) (i : Fin n) (v : V) :
      s.threads i = .produced v →
      FlightStep n produce s
        ⟨Function.update s.threads i (.stored v), s.lock, some v, s.invocations⟩
  | unlockHit (s : FlightState n V) (i : Fin n) (v : V) :
      s.threads i = .loadedHit v →
      FlightStep n produce s
        ⟨Function.update s.threads i (.done v true), none, s.cache, s.invocations⟩
  | unlockMiss (s : FlightState n V) (i : Fin n) (v : V) :
      s.threads i = .stored v →
      FlightStep n produce s
        ⟨Function.update s.threads i (.done v false), none, s.cache, s.invocations⟩

/-- Inductive invariant of the single-flight system. -/
structure FlightInv (n : Nat) {V : Type} (produce : V) (s : FlightState n V) : Prop where
  lockOfCritical : ∀ i, (s.threads i).isCritical = true → s.lock = some i
  cacheVal : ∀ v, s.cache = some v → v = produce
  doneVal : ∀ i v b, s.threads i = .done v b → v = produce
  hitVal : ∀ i v, s.threads i = .loadedHit v → v = produce
  prodVal : ∀ i v, s.threads i = .produced v → v = produce
  storedVal : ∀ i v, s.threads i = .stored v → v = produce
  invocationsCount :
    s.invocations =
      (Finset.univ.filter (fun i => (s.threads i).isPastProduce = true)).card
  missUnique : ∀ i j, (s.threads i).isMissRegion = true →
    (s.threads j).isMissRegion = true → i = j
  cacheNone : s.cache = none → ∀ i, (s.threads i).isStoredRegion = false
  cacheSome : ∀ v, s.cache = some v → ∃ i, (s.threads i).isStoredRegion = true
  hitNeedsCache : ∀ i v, s.threads i = .done v true ∨ s.threads i = .loadedHit v →
    ∃ w, s.cache = some w

/-- Per-image architecture set as seen through the registry (empty on a
lookup failure); specification-side helper for stating which architectures
each image supports. -/
def archsOfImage (h : Handler) (reg : String → String → Except String (List Platform))
    (secret image : String) : List String :=
  match reg secret image with
  | .ok platforms => h.imageArchitectures platforms
  | .error _ => []

/-- Specification-side description of the placement values: the
architectures supported by every image, sorted lexicographically. -/
def specCommonArchs (h : Handler) (reg : String → String → Except String (List Platform))
    (secret : String) (images : List String) : List String :=
  match images with
  | [] => []
  | image0 :: _ =>
    keys ((archsOfImage h reg secret image0).filter
      (fun a => images.all (fun image => (archsOfImage h reg secret image).contains a)))

/-- Specification-side reading of the amended login-pattern semantics,
stated through first-occurrence splits: the pattern host (before the first
colon of the part before the first slash) must glob-match the registry up to
its first colon under filepath.Match semantics; a non-empty pattern port
(between the first and second colon) must equal the registry segment between
its first and second colon; and with a non-empty first path segment the
match succeeds only when that segment is not a prefix of the image. -/
def loginPatternSpec (registry image pattern : List Char) : Bool :=
  let hostport := (splitFirst '/' pattern).1
  let patPath :=
    match (splitFirst '/' pattern).2 with
    | some r => (splitFirst '/' r).1
    | none => []
  let patHost := (splitFirst ':' hostport).1
  let patPort :=
    match (splitFirst ':' hostport).2 with
    | some r => (splitFirst ':' r).1
    | none => []
  let regHost := (splitFirst ':' registry).1
  let regPort :=
    match (splitFirst ':' registry).2 with
    | some r => some ((splitFirst ':' r).1)
    | none => none
  decide (filepathMatch patHost regHost = some true) &&
    (patPort.isEmpty ||
      (match regPort with
       | some rp => decide (rp = patPort)
       | none => false)) &&
    (patPath.isEmpty || ! (patPath.isPrefixOf image))

theorem lexLe_total : ∀ a b : List Char, lexLe a b = true ∨ lexLe b a = true
  | [], _ => Or.inl rfl
  | _ :: _, [] => Or.inr rfl
  | a :: as, b :: bs => by
    by_cases hab : a = b
    · subst hab
      simpa [lexLe] using lexLe_total as bs
    · rcases lt_or_gt_of_ne hab with h | h
      · exact Or.inl (by simp [lexLe, hab, h])
      · exact Or.inr (by simp [lexLe, Ne.symm hab, not_lt_of_gt h, h])

theorem lexLe_trans : ∀ a b c : List Char,
    lexLe a b = true → lexLe b c = true → lexLe a c = true
  | [], _, _, _, _ => rfl
  | a :: as, [], c, h, _ => by simp [lexLe] at h
  | a :: as, b :: bs, [], _, h => by simp [lexLe] at h
  | a :: as, b :: bs, c :: cs, h1, h2 => by
    by_cases hab : a = b <;> by_cases hbc : b = c
    · subst hab; subst hbc
      simp only [lexLe, if_pos rfl] at h1 h2 ⊢
      exact lexLe_trans as bs cs h1 h2
    · subst hab
      simpa [lexLe, hbc] using h2
    · subst hbc
      simpa [lexLe, hab] using h1
    · simp only [lexLe, if_neg hab, decide_eq_true_eq] at h1
      simp only [lexLe, if_neg hbc, decide_eq_true_eq] at h2
      have hac : a < c := lt_trans h1 h2
      simp [lexLe, ne_of_lt hac, hac]

theorem lexLe_antisymm : ∀ a b : List Char,
    lexLe a b = true → lexLe b a = true → a = b
  | [], [], _, _ => rfl
  | [], _ :: _, _, h => by simp [lexLe] at h
  | _ :: _, [], h, _ => by simp [lexLe] at h
  | a :: as, b :: bs, h1, h2 => by
    by_cases hab : a = b
    · subst hab
      simp only [lexLe, if_pos rfl] at h1 h2
      exact congrArg _ (lexLe_antisymm as bs h1 h2)
    · simp only [lexLe, if_neg hab, decide_eq_true_eq] at h1
      simp only [lexLe, if_neg (Ne.symm hab), decide_eq_true_eq] at h2
      exact absurd h1 (not_lt_of_gt h2)

theorem strLe_total (a b : String) : strLe a b = true ∨ strLe b a = true :=
  lexLe_total _ _

theorem strLe_trans {a b c : String} (h1 : strLe a b = true) (h2 : strLe b c = true) :
    strLe a c = true :=
  lexLe_trans _ _ _ h1 h2

theorem strLe_antisymm {a b : String} (h1 : strLe a b = true) (h2 : strLe b a = true) :
    a = b := by
  have h := lexLe_antisymm _ _ h1 h2
  cases a; cases b
  simpa [String.toList] using congrArg String.mk h

theorem filter_update_congr {n : Nat} {α : Type} (f : Fin n → α) (p : α → Bool)
    (i : Fin n) (x : α) (hx : p x = p (f i)) :
    (Finset.univ.filter (fun j => p (Function.update f i x j) = true)) =
      (Finset.univ.filter (fun j => p (f j) = true)) := by
  apply Finset.filter_congr
  intro j _
  by_cases hj : j = i
  · subst hj
    simp [Function.update_apply, hx]
  · simp [Function.update_apply, hj]

theorem filter_update_card_succ {n : Nat} {α : Type} (f : Fin n → α) (p : α → Bool)
    (i : Fin n) (x : α) (hx : p x = true) (hi : p (f i) = false) :
    (Finset.univ.filter (fun j => p (Function.update f i x j) = true)).card =
      (Finset.univ.filter (fun j => p (f j) = true)).card + 1 := by
  have hins : (Finset.univ.filter (fun j => p (Function.update f i x j) = true)) =
      insert i (Finset.univ.filter (fun j => p (f j) = true)) := by
    ext j
    by_cases hj : j = i
    · subst hj
      simp [Function.update_apply, hx]
    · simp [Function.update_apply, hj]
  rw [hins, Finset.card_insert_of_not_mem]
  simp [hi]

theorem flightInv_init (n : Nat) {V : Type} (produce : V) :
    FlightInv n produce (initFlightState n V) := by
  refine ⟨?_, ?_, ?_, ?_, ?_, ?_, ?_, ?_, ?_, ?_, ?_⟩ <;>
    simp [initFlightState, FlightPhase.isCritical, FlightPhase.isPastProduce,
      FlightPhase.isMissRegion, FlightPhase.isStoredRegion]

theorem flightInv_step {n : Nat} {V : Type} {produce : V} {s s2 : FlightState n V}
    (hinv : FlightInv n produce s) (hstep : FlightStep n produce s s2) :
    FlightInv n produce s2 := by
  cases hstep with
  | lockStep i hph hlock =>
    refine ⟨?_, ?_, ?_, ?_, ?_, ?_, ?_, ?_, ?_, ?_, ?_⟩
    · intro j hj
      by_cases hji : j = i
      · simp [hji]
      · exfalso
        simp only [Function.update_apply, if_neg hji] at hj
        have := hinv.lockOfCritical j hj
        rw [hlock] at this
        exact Option.noConfusion this
    · exact hinv.cacheVal
    · intro j v b hj
      by_cases hji : j = i
      · subst hji; simp [Function.update_apply] at hj
      · simp only [Function.update_apply, if_neg hji] at hj
        exact hinv.doneVal j v b hj
    · intro j v hj
      by_cases hji : j = i
      · subst hji; simp [Function.update_apply] at hj
      · simp only [Function.update_apply, if_neg hji] at hj
        exact hinv.hitVal j v hj
    · intro j v hj
      by_cases hji : j = i
      · subst hji; simp [Function.update_apply] at hj
      · simp only [Function.update_apply, if_neg hji] at hj
        exact hinv.prodVal j v hj
    · intro j v hj
      by_cases hji : j = i
      · subst hji; simp [Function.update_apply] at hj
      · simp only [Function.update_apply, if_neg hji] at hj
        exact hinv.storedVal j v hj
    · show s.invocations = _
      rw [filter_update_congr s.threads FlightPhase.isPastProduce i .beforeLoad
        (by rw [hph]; rfl)]
      exact hinv.invocationsCount
    · intro j k hj hk
      have hj2 : (s.threads j).isMissRegion = true := by
        by_cases hji : j = i
        · subst hji; simp [Function.update_apply, FlightPhase.isMissRegion] at hj
        · simpa [Function.update_apply, hji] using hj
      have hk2 : (s.threads k).isMissRegion = true := by
        by_cases hki : k = i
        · subst hki; simp [Function.update_apply, FlightPhase.isMissRegion] at hk
        · simpa [Function.update_apply, hki] using hk
      exact hinv.missUnique j k hj2 hk2
    · intro hc j
      by_cases hji : j = i
      · subst hji; simp [Function.update_apply, FlightPhase.isStoredRegion]
      · simp only [Function.update_apply, if_neg hji]
        exact hinv.cacheNone hc j
    · intro v hv
      obtain ⟨j, hj⟩ := hinv.cacheSome v hv
      refine ⟨j, ?_⟩
      by_cases hji : j = i
      · subst hji; rw [hph] at hj; simp [FlightPhase.isStoredRegion] at hj
      · simpa [Function.update_apply, hji] using hj
    · intro j v hj
      by_cases hji : j = i
      · subst hji; simp [Function.update_apply] at hj
      · simp only [Function.update_apply, if_neg hji] at hj
        exact hinv.hitNeedsCache j v hj
  | loadHit i v hph hc =>
    have hlock : s.lock = some i :=
      hinv.lockOfCritical i (by rw [hph]; rfl)
    have hvp : v = produce := hinv.cacheVal v hc
    refine ⟨?_, ?_, ?_, ?_, ?_, ?_, ?_, ?_, ?_, ?_, ?_⟩
    · intro j hj
      by_cases hji : j = i
      · subst hji; simpa using hlock
      · simp only [Function.update_apply, if_neg hji] at hj
        exact hinv.lockOfCritical j hj
    · exact hinv.cacheVal
    · intro j w b hj
      by_cases hji : j = i
      · subst hji; simp [Function.update_apply] at hj
      · simp only [Function.update_apply, if_neg hji] at hj
        exact hinv.doneVal j w b hj
    · intro j w hj
      by_cases hji : j = i
      · subst hji
        simp only [Function.update_apply, if_pos rfl] at hj
        cases hj
        exact hvp
      · simp only [Function.update_apply, if_neg hji] at hj
        exact hinv.hitVal j w hj
    · intro j w hj
      by_cases hji : j = i
      · subst hji; simp [Function.update_apply] at hj
      · simp only [Function.update_apply, if_neg hji] at hj
        exact hinv.prodVal j w hj
    · intro j w hj
      by_cases hji : j = i
      · subst hji; simp [Function.update_apply] at hj
      · simp only [Function.update_apply, if_neg hji] at hj
        exact hinv.storedVal j w hj
    · show s.invocations = _
      rw [filter_update_congr s.threads FlightPhase.isPastProduce i (.loadedHit v)
        (by rw [hph]; rfl)]
      exact hinv.invocationsCount
    · intro j k hj hk
      have hj2 : (s.threads j).isMissRegion = true := by
        by_cases hji : j = i
        · subst hji; simp [Function.update_apply, FlightPhase.isMissRegion] at hj
        · simpa [Function.update_apply, hji] using hj
      have hk2 : (s.threads k).isMissRegion = true := by
        by_cases hki : k = i
        · subst hki; simp [Function.update_apply, FlightPhase.isMissRegion] at hk
        · simpa [Function.update_apply, hki] using hk
      exact hinv.missUnique j k hj2 hk2
    · intro hcn
      rw [hcn] at hc
      exact Option.noConfusion hc
    · intro w hw
      obtain ⟨j, hj⟩ := hinv.cacheSome w hw
      refine ⟨j, ?_⟩
      by_cases hji : j = i
      · subst hji; rw [hph] at hj; simp [FlightPhase.isStoredRegion] at hj
      · simpa [Function.update_apply, hji] using hj
    · intro j w hj
      exact ⟨v, hc⟩
  | loadMiss i hph hc =>
    have hlock : s.lock = some i :=
      hinv.lockOfCritical i (by rw [hph]; rfl)
    refine ⟨?_, ?_, ?_, ?_, ?_, ?_, ?_, ?_, ?_, ?_, ?_⟩
    · intro j hj
      by_cases hji : j = i
      · subst hji; simpa using hlock
      · simp only [Function.update_apply, if_neg hji] at hj
        exact hinv.lockOfCritical j hj
    · exact hinv.cacheVal
    · intro j w b hj
      by_cases hji : j = i
      · subst hji; simp [Function.update_apply] at hj
      · simp only [Function.update_apply, if_neg hji] at hj
        exact hinv.doneVal j w b hj
    · intro j w hj
      by_cases hji : j = i
      · subst hji; simp [Function.update_apply] at hj
      · simp only [Function.update_apply, if_neg hji] at hj
        exact hinv.hitVal j w hj
    · intro j w hj
      by_cases hji : j = i
      · subst hji; simp [Function.update_apply] at hj
      · simp only [Function.update_apply, if_neg hji] at hj
        exact hinv.prodVal j w hj
    · intro j w hj
      by_cases hji : j = i
      · subst hji; simp [Function.update_apply] at hj
      · simp only [Function.update_apply, if_neg hji] at hj
        exact hinv.storedVal j w hj
    · show s.invocations = _
      rw [filter_update_congr s.threads FlightPhase.isPastProduce i .missed
        (by rw [hph]; rfl)]
      exact hinv.invocationsCount
    · intro j k hj hk
      have key : ∀ m : Fin n,
          ((Function.update s.threads i FlightPhase.missed m).isMissRegion = true) → m = i := by
        intro m hm
        by_cases hmi : m = i
        · exact hmi
        · exfalso
          simp only [Function.update_apply, if_neg hmi] at hm
          cases hsm : s.threads m with
          | missed =>
            have := hinv.lockOfCritical m (by rw [hsm]; rfl)
            rw [hlock] at this; cases this; exact hmi rfl
          | produced w =>
            have := hinv.lockOfCritical m (by rw [hsm]; rfl)
            rw [hlock] at this; cases this; exact hmi rfl
          | stored w =>
            have := hinv.lockOfCritical m (by rw [hsm]; rfl)
            rw [hlock] at this; cases this; exact hmi rfl
          | done w b =>
            cases b with
            | false =>
              have := hinv.cacheNone hc m
              rw [hsm] at this
              simp [FlightPhase.isStoredRegion] at this
            | true =>
              rw [hsm] at hm
              simp [FlightPhase.isMissRegion] at hm
          | beforeLock =>
            rw [hsm] at hm
            simp [FlightPhase.isMissRegion] at hm
          | beforeLoad =>
            rw [hsm] at hm
            simp [FlightPhase.isMissRegion] at hm
          | loadedHit w =>
            rw [hsm] at hm
            simp [FlightPhase.isMissRegion] at hm
      rw [key j hj, key k hk]
    · intro _ j
      by_cases hji : j = i
      · subst hji; simp [Function.update_apply, FlightPhase.isStoredRegion]
      · simp only [Function.update_apply, if_neg hji]
        exact hinv.cacheNone hc j
    · intro w hw
      rw [hc] at hw
      exact Option.noConfusion hw
    · intro j w hj
      by_cases hji : j = i
      · subst hji; simp [Function.update_apply] at hj
      · simp only [Function.update_apply, if_neg hji] at hj
        exact hinv.hitNeedsCache j w hj
  | produceStep i hph =>
    have hlock : s.lock = some i :=
      hinv.lockOfCritical i (by rw [hph]; rfl)
    refine ⟨?_, ?_, ?_, ?_, ?_, ?_, ?_, ?_, ?_, ?_, ?_⟩
    · intro j hj
      by_cases hji : j = i
      · subst hji; simpa using hlock
      · simp only [Function.update_apply, if_neg hji] at hj
        exact hinv.lockOfCritical j hj
    · exact hinv.cacheVal
    · intro j w b hj
      by_cases hji : j = i
      · subst hji; simp [Function.update_apply] at hj
      · simp only [Function.update_apply, if_neg hji] at hj
        exact hinv.doneVal j w b hj
    · intro j w hj
      by_cases hji : j = i
      · subst hji; simp [Function.update_apply] at hj
      · simp only [Function.update_apply, if_neg hji] at hj
        exact hinv.hitVal j w hj
    · intro j w hj
      by_cases hji : j = i
      · subst hji
        simp only [Function.update_apply, if_pos rfl] at hj
        cases hj
        rfl
      · simp only [Function.update_apply, if_neg hji] at hj
        exact hinv.prodVal j w hj
    · intro j w hj
      by_cases hji : j = i
      · subst hji; simp [Function.update_apply] at hj
      · simp only [Function.update_apply, if_neg hji] at hj
        exact hinv.storedVal j w hj
    · show s.invocations + 1 = _
      rw [filter_update_card_succ s.threads FlightPhase.isPastProduce i
        (.produced produce) rfl (by rw [hph]; rfl)]
      rw [hinv.invocationsCount]
    · intro j k hj hk
      have hj2 : (s.threads j).isMissRegion = true := by
        by_cases hji : j = i
        · subst hji; rw [hph]; rfl
        · simpa [Function.update_apply, hji] using hj
      have hk2 : (s.threads k).isMissRegion = true := by
        by_cases hki : k = i
        · subst hki; rw [hph]; rfl
        · simpa [Function.update_apply, hki] using hk
      exact hinv.missUnique j k hj2 hk2
    · intro hc j
      by_cases hji : j = i
      · subst hji; simp [Function.update_apply, FlightPhase.isStoredRegion]
      · simp only [Function.update_apply, if_neg hji]
        exact hinv.cacheNone hc j
    · intro w hw
      obtain ⟨j, hj⟩ := hinv.cacheSome w hw
      refine ⟨j, ?_⟩
      by_cases hji : j = i
      · subst hji; rw [hph] at hj; simp [FlightPhase.isStoredRegion] at hj
      · simpa [Function.update_apply, hji] using hj
    · intro j w hj
      by_cases hji : j = i
      · subst hji; simp [Function.update_apply] at hj
      · simp only [Function.update_apply, if_neg hji] at hj
        exact hinv.hitNeedsCache j w hj
  | storeStep i v hph =>
    have hlock : s.lock = some i :=
      hinv.lockOfCritical i (by rw [hph]; rfl)
    have hvp : v = produce := hinv.prodVal i v hph
    refine ⟨?_, ?_, ?_, ?_, ?_, ?_, ?_, ?_, ?_, ?_, ?_⟩
    · intro j hj
      by_cases hji : j = i
      · subst hji; simpa using hlock
      · simp only [Function.update_apply, if_neg hji] at hj
        exact hinv.lockOfCritical j hj
    · intro w hw
      cases hw
      exact hvp
    · intro j w b hj
      by_cases hji : j = i
      · subst hji; simp [Function.update_apply] at hj
      · simp only [Function.update_apply, if_neg hji] at hj
        exact hinv.doneVal j w b hj
    · intro j w hj
      by_cases hji : j = i
      · subst hji; simp [Function.update_apply] at hj
      · simp only [Function.update_apply, if_neg hji] at hj
        exact hinv.hitVal j w hj
    · intro j w hj
      by_cases hji : j = i
      · subst hji; simp [Function.update_apply] at hj
      · simp only [Function.update_apply, if_neg hji] at hj
        exact hinv.prodVal j w hj
    · intro j w hj
      by_cases hji : j = i
      · subst hji
        simp only [Function.update_apply, if_pos rfl] at hj
        cases hj
        exact hvp
      · simp only [Function.update_apply, if_neg hji] at hj
        exact hinv.storedVal j w hj
    · show s.invocations = _
      rw [filter_update_congr s.threads FlightPhase.isPastProduce i (.stored v)
        (by rw [hph]; rfl)]
      exact hinv.invocationsCount
    · intro j k hj hk
      have hj2 : (s.threads j).isMissRegion = true := by
        by_cases hji : j = i
        · subst hji; rw [hph]; rfl
        · simpa [Function.update_apply, hji] using hj
      have hk2 : (s.threads k).isMissRegion = true := by
        by_cases hki : k = i
        · subst hki; rw [hph]; rfl
        · simpa [Function.update_apply, hki] using hk
      exact hinv.missUnique j k hj2 hk2
    · intro hc
      exact Option.noConfusion hc
    · intro w _
      exact ⟨i, by simp [Function.update_apply, FlightPhase.isStoredRegion]⟩
    · intro j w _
      exact ⟨v, rfl⟩
  | unlockHit i v hph =>
    have hlock : s.lock = some i :=
      hinv.lockOfCritical i (by rw [hph]; rfl)
    have hvp : v = produce := hinv.hitVal i v hph
    refine ⟨?_, ?_, ?_, ?_, ?_, ?_, ?_, ?_, ?_, ?_, ?_⟩
    · intro j hj
      exfalso
      by_cases hji : j = i
      · subst hji; simp [Function.update_apply, FlightPhase.isCritical] at hj
      · simp only [Function.update_apply, if_neg hji] at hj
        have := hinv.lockOfCritical j hj
        rw [hlock] at this
        cases this
        exact hji rfl
    · exact hinv.cacheVal
    · intro j w b hj
      by_cases hji : j = i
      · subst hji
        simp only [Function.update_apply, if_pos rfl] at hj
        cases hj
        exact hvp
      · simp only [Function.update_apply, if_neg hji] at hj
        exact hinv.doneVal j w b hj
    · intro j w hj
      by_cases hji : j = i
      · subst hji; simp [Function.update_apply] at hj
      · simp only [Function.update_apply, if_neg hji] at hj
        exact hinv.hitVal j w hj
    · intro j w hj
      by_cases hji : j = i
      · subst hji; simp [Function.update_apply] at hj
      · simp only [Function.update_apply, if_neg hji] at hj
        exact hinv.prodVal j w hj
    · intro j w hj
      by_cases hji : j = i
      · subst hji; simp [Function.update_apply] at hj
      · simp only [Function.update_apply, if_neg hji] at hj
        exact hinv.storedVal j w hj
    · show s.invocations = _
      rw [filter_update_congr s.threads FlightPhase.isPastProduce i (.done v true)
        (by rw [hph]; rfl)]
      exact hinv.invocationsCount
    · intro j k hj hk
      have hj2 : (s.threads j).isMissRegion = true := by
        by_cases hji : j = i
        · subst hji; simp [Function.update_apply, FlightPhase.isMissRegion] at hj
        · simpa [Function.update_apply, hji] using hj
      have hk2 : (s.threads k).isMissRegion = true := by
        by_cases hki : k = i
        · subst hki; simp [Function.update_apply, FlightPhase.isMissRegion] at hk
        · simpa [Function.update_apply, hki] using hk
      exact hinv.missUnique j k hj2 hk2
    · intro hc j
      by_cases hji : j = i
      · subst hji; simp [Function.update_apply, FlightPhase.isStoredRegion]
      · simp only [Function.update_apply, if_neg hji]
        exact hinv.cacheNone hc j
    · intro w hw
      obtain ⟨j, hj⟩ := hinv.cacheSome w hw
      refine ⟨j, ?_⟩
      by_cases hji : j = i
      · subst hji; rw [hph] at hj; simp [FlightPhase.isStoredRegion] at hj
      · simpa [Function.update_apply, hji] using hj
    · intro j w _
      exact hinv.hitNeedsCache i v (Or.inr hph)
  | unlockMiss i v hph =>
    have hlock : s.lock = some i :=
      hinv.lockOfCritical i (by rw [hph]; rfl)
    have hvp : v = produce := hinv.storedVal i v hph
    have hcs : ∃ w, s.cache = some w := by
      cases hcv : s.cache with
      | none =>
        have := hinv.cacheNone hcv i
        rw [hph] at this
        exact Bool.noConfusion this
      | some w => exact ⟨w, rfl⟩
    refine ⟨?_, ?_, ?_, ?_, ?_, ?_, ?_, ?_, ?_, ?_, ?_⟩
    · intro j hj
      exfalso
      by_cases hji : j = i
      · subst hji; simp [Function.update_apply, FlightPhase.isCritical] at hj
      · simp only [Function.update_apply, if_neg hji] at hj
        have := hinv.lockOfCritical j hj
        rw [hlock] at this
        cases this
        exact hji rfl
    · exact hinv.cacheVal
    · intro j w b hj
      by_cases hji : j = i
      · subst hji
        simp only [Function.update_apply, if_pos rfl] at hj
        cases hj
        exact hvp
      · simp only [Function.update_apply, if_neg hji] at hj
        exact hinv.doneVal j w b hj
    · intro j w hj
      by_cases hji : j = i
      · subst hji; simp [Function.update_apply] at hj
      · simp only [Function.update_apply, if_neg hji] at hj
        exact hinv.hitVal j w hj
    · intro j w hj
      by_cases hji : j = i
      · subst hji; simp [Function.update_apply] at hj
      · simp only [Function.update_apply, if_neg hji] at hj
        exact hinv.prodVal j w hj
    · intro j w hj
      by_cases hji : j = i
      · subst hji; simp [Function.update_apply] at hj
      · simp only [Function.update_apply, if_neg hji] at hj
        exact hinv.storedVal j w hj
    · show s.invocations = _
      rw [filter_update_congr s.threads FlightPhase.isPastProduce i (.done v false)
        (by rw [hph]; rfl)]
      exact hinv.invocationsCount
    · intro j k hj hk
      have hj2 : (s.threads j).isMissRegion = true := by
        by_cases hji : j = i
        · subst hji; rw [hph]; rfl
        · simpa [Function.update_apply, hji] using hj
      have hk2 : (s.threads k).isMissRegion = true := by
        by_cases hki : k = i
        · subst hki; rw [hph]; rfl
        · simpa [Function.update_apply, hki] using hk
      exact hinv.missUnique j k hj2 hk2
    · intro hc
      obtain ⟨w, hw⟩ := hcs
      rw [hc] at hw
      exact Option.noConfusion hw
    · intro w _
      exact ⟨i, by simp [Function.update_apply, FlightPhase.isStoredRegion]⟩
    · intro j w _
      exact hcs

theorem flightInv_reachable {n : Nat} {V : Type} {produce : V} {s : FlightState n V}
    (hreach : Relation.ReflTransGen (FlightStep n produce) (initFlightState n V) s) :
    FlightInv n produce s := by
  induction hreach with
  | refl => exact flightInv_init n produce
  | tail _ hstep ih => exact flightInv_step ih hstep

/-- C5: the TTL cache is single-flight per key: in every complete
interleaving of N concurrent LoadOrCall callers for the same key on a cold
cache, the producer (the underlying ListArchs of the registry) runs exactly
once, and every caller finishes with the value of that single invocation. -/
theorem cache_single_flight {n : Nat} {V : Type} (produce : V) (s : FlightState n V)
    (hn : 0 < n)
    (hreach : Relation.ReflTransGen (FlightStep n produce) (initFlightState n V) s)
    (hdone : ∀ i, ∃ v b, s.threads i = .done v b) :
    s.invocations = 1 ∧ ∀ i v b, s.threads i = .done v b → v = produce := by
  have hinv := flightInv_reachable hreach
  refine ⟨?_, fun i v b h => hinv.doneVal i v b h⟩
  have hexists : ∃ i v, s.threads i = .done v false := by
    by_contra hno
    push_neg at hno
    obtain ⟨v0, b0, h0⟩ := hdone ⟨0, hn⟩
    have hb0 : b0 = true := by
      cases b0
      · exact absurd h0 (hno ⟨0, hn⟩ v0)
      · rfl
    subst hb0
    obtain ⟨w, hw⟩ := hinv.hitNeedsCache ⟨0, hn⟩ v0 (Or.inl h0)
    obtain ⟨j, hj⟩ := hinv.cacheSome w hw
    obtain ⟨vj, bj, hjd⟩ := hdone j
    rw [hjd] at hj
    cases bj
    · exact hno j vj hjd
    · simp [FlightPhase.isStoredRegion] at hj
  obtain ⟨i0, v0, h0⟩ := hexists
  rw [hinv.invocationsCount]
  have hset : (Finset.univ.filter (fun i => (s.threads i).isPastProduce = true)) = {i0} := by
    ext j
    simp only [Finset.mem_filter, Finset.mem_univ, true_and, Finset.mem_singleton]
    constructor
    · intro hj
      have hjm : (s.threads j).isMissRegion = true := by
        obtain ⟨vj, bj, hjd⟩ := hdone j
        rw [hjd] at hj ⊢
        cases bj
        · rfl
        · simp [FlightPhase.isPastProduce] at hj
      have hi0m : (s.threads i0).isMissRegion = true := by rw [h0]; rfl
      exact hinv.missUnique j i0 hjm hi0m
    · intro hj
      subst hj
      rw [h0]
      rfl
  rw [hset, Finset.card_singleton]

theorem cache_single_flight_witness :
    ∃ s : FlightState 2 Nat,
      Relation.ReflTransGen (FlightStep 2 7) (initFlightState 2 Nat) s ∧
      (∀ i, ∃ v b, s.threads i = .done v b) ∧
      s.invocations = 1 ∧ (∀ i v b, s.threads i = .done v b → v = 7) := by
  let s0 := initFlightState 2 Nat
  let i0 : Fin 2 := 0
  let i1 : Fin 2 := 1
  let s1 : FlightState 2 Nat :=
    ⟨Function.update s0.threads i0 .beforeLoad, some i0, s0.cache, s0.invocations⟩
  let s2 : FlightState 2 Nat :=
    ⟨Function.update s1.threads i0 .missed, s1.lock, s1.cache, s1.invocations⟩
  let s3 : FlightState 2 Nat :=
    ⟨Function.update s2.threads i0 (.produced 7), s2.lock, s2.cache, s2.invocations + 1⟩
  let s4 : FlightState 2 Nat :=
    ⟨Function.update s3.threads i0 (.stored 7), s3.lock, some 7, s3.invocations⟩
  let s5 : FlightState 2 Nat :=
    ⟨Function.update s4.threads i0 (.done 7 false), none, s4.cache, s4.invocations⟩
  let s6 : FlightState 2 Nat :=
    ⟨Function.update s5.threads i1 .beforeLoad, some i1, s5.cache, s5.invocations⟩
  let s7 : FlightState 2 Nat :=
    ⟨Function.update s6.threads i1 (.loadedHit 7), s6.lock, s6.cache, s6.invocations⟩
  let s8 : FlightState 2 Nat :=
    ⟨Function.update s7.threads i1 (.done 7 true), none, s7.cache, s7.invocations⟩
  have st1 : FlightStep 2 7 s0 s1 := FlightStep.lockStep s0 i0 rfl rfl
  have st2 : FlightStep 2 7 s1 s2 := FlightStep.loadMiss s1 i0 (by decide) (by decide)
  have st3 : FlightStep 2 7 s2 s3 := FlightStep.produceStep s2 i0 (by decide)
  have st4 : FlightStep 2 7 s3 s4 := FlightStep.storeStep s3 i0 7 (by decide)
  have st5 : FlightStep 2 7 s4 s5 := FlightStep.unlockMiss s4 i0 7 (by decide)
  have st6 : FlightStep 2 7 s5 s6 := FlightStep.lockStep s5 i1 (by decide) (by decide)
  have st7 : FlightStep 2 7 s6 s7 := FlightStep.loadHit s6 i1 7 (by decide) (by decide)
  have st8 : FlightStep 2 7 s7 s8 := FlightStep.unlockHit s7 i1 7 (by decide)
  have hreach : Relation.ReflTransGen (FlightStep 2 7) s0 s8 :=
    Relation.ReflTransGen.tail (Relation.ReflTransGen.tail (Relation.ReflTransGen.tail
      (Relation.ReflTransGen.tail (Relation.ReflTransGen.tail (Relation.ReflTransGen.tail
        (Relation.ReflTransGen.tail (Relation.ReflTransGen.tail
          Relation.ReflTransGen.refl st1) st2) st3) st4) st5) st6) st7) st8
  have hdone : ∀ i : Fin 2, ∃ v b, s8.threads i = .done v b := by
    intro i
    fin_cases i
    · exact ⟨7, false, by decide⟩
    · exact ⟨7, true, by decide⟩
  exact ⟨s8, hreach, hdone, cache_single_flight 7 s8 (by decide) hreach hdone⟩

/-- C6: a producer error surfaces from LoadOrCall unchanged and nothing is
stored for the key: the cache state is unchanged, a subsequent Load on the
key still misses, and a subsequent LoadOrCall invokes the producer again, so
two sequential failing calls cause two underlying invocations. -/
theorem loadOrCall_error_not_cached {T E : Type} (c : Cache T) (now now2 : Nat)
    (key : String) (e e2 : E)
    (hmiss : c.Load now key = none) (hle : now ≤ now2) :
    (c.LoadOrCall now key (Except.error e)).result = Except.error e ∧
    (c.LoadOrCall now key (Except.error e)).state = c ∧
    (c.LoadOrCall now key (Except.error e)).producerInvoked = true ∧
    (c.LoadOrCall now key (Except.error e)).state.Load now2 key = none ∧
    ((c.LoadOrCall now key (Except.error e)).state.LoadOrCall now2 key
      (Except.error e2)).result = Except.error e2 ∧
    ((c.LoadOrCall now key (Except.error e)).state.LoadOrCall now2 key
      (Except.error e2)).producerInvoked = true := by
  have hmiss2 : c.Load now2 key = none := by
    unfold Cache.Load at hmiss ⊢
    cases hfind : (c.cache.find? fun kv => kv.1 = key).map (·.2) with
    | none => rfl
    | some entry =>
      rw [hfind] at hmiss
      by_cases hlt : now < entry.expiry
      · simp [hlt] at hmiss
      · have hlt2 : ¬ now2 < entry.expiry := fun hc => hlt (lt_of_le_of_lt hle hc)
        simp [hlt2]
  simp [Cache.LoadOrCall, hmiss, hmiss2]

theorem loadOrCall_error_not_cached_witness :
    ((⟨[], 10⟩ : Cache (List Platform)).Load 0 "secret:img" = none) ∧
    ((0 : Nat) ≤ 1) ∧
    ((⟨[], 10⟩ : Cache (List Platform)).LoadOrCall 0 "secret:img"
      (Except.error "registry down")).result = Except.error "registry down" ∧
    ((⟨[], 10⟩ : Cache (List Platform)).LoadOrCall 0 "secret:img"
      (Except.error "registry down")).state = ⟨[], 10⟩ ∧
    ((⟨[], 10⟩ : Cache (List Platform)).LoadOrCall 0 "secret:img"
      (Except.error "registry down")).producerInvoked = true ∧
    ((⟨[], 10⟩ : Cache (List Platform)).LoadOrCall 0 "secret:img"
      (Except.error "registry down")).state.Load 1 "secret:img" = none ∧
    (((⟨[], 10⟩ : Cache (List Platform)).LoadOrCall 0 "secret:img"
      (Except.error "registry down")).state.LoadOrCall 1 "secret:img"
      (Except.error "still down")).result = Except.error "still down" ∧
    (((⟨[], 10⟩ : Cache (List Platform)).LoadOrCall 0 "secret:img"
      (Except.error "registry down")).state.LoadOrCall 1 "secret:img"
      (Except.error "still down")).producerInvoked = true := by
  refine ⟨by decide, by decide, ?_⟩
  have h := loadOrCall_error_not_cached (⟨[], 10⟩ : Cache (List Platform)) 0 1
    "secret:img" "registry down" "still down" (by decide) (by decide)
  exact ⟨h.1, h.2.1, h.2.2.1, h.2.2.2.1, h.2.2.2.2.1, h.2.2.2.2.2⟩

/-- C10: with an empty schedulable-architecture list, isArchSupported
accepts every architecture; consequently the per-image architecture set
filters platforms only by OS (no platform is dropped for schedulability),
and a non-empty pod-label preferred architecture is never discarded as
unsupported (the resolved preference is the label value). -/
theorem isArchSupported_empty_allows_all (h : Handler)
    (hempty : h.schedulableArchitectures = []) :
    (∀ arch, h.isArchSupported arch = true) ∧
    (∀ platforms, h.imageArchitectures platforms =
      platforms.foldl (fun acc p =>
        if p.os ≠ "" ∧ p.os ≠ h.systemOS then acc
        else insertArch acc p.architecture) []) ∧
    (∀ podLabels v, mapLookup podLabels "arch.noe.adevinta.com/preferred" = some v →
      v ≠ "" → (h.resolvePreferredArch podLabels).1 = v) := by
  have hsup : ∀ arch, h.isArchSupported arch = true := by
    intro arch
    simp [Handler.isArchSupported, hempty]
  refine ⟨hsup, ?_, ?_⟩
  · intro platforms
    unfold Handler.imageArchitectures
    apply List.foldl_ext
    intro acc p _
    by_cases hos : p.os ≠ "" ∧ p.os ≠ h.systemOS
    · simp [hos]
    · simp [hos, hsup p.architecture]
  · intro podLabels v hv hne
    simp [Handler.resolvePreferredArch, hv, hne, hsup v]

theorem isArchSupported_empty_allows_all_witness :
    (Handler.isArchSupported ⟨[], "amd64", [], "linux"⟩ "riscv64" = true) ∧
    (Handler.imageArchitectures ⟨[], "amd64", [], "linux"⟩
        [⟨"riscv64", "linux", ""⟩, ⟨"s390x", "windows", ""⟩] = ["riscv64"]) ∧
    ((Handler.resolvePreferredArch ⟨[], "amd64", [], "linux"⟩
        [("arch.noe.adevinta.com/preferred", "arm64")]).1 = "arm64") := by
  have h := isArchSupported_empty_allows_all ⟨[], "amd64", [], "linux"⟩ rfl
  refine ⟨h.1 "riscv64", ?_, ?_⟩
  · rw [h.2.1 [⟨"riscv64", "linux", ""⟩, ⟨"s390x", "windows", ""⟩]]
    decide
  · exact h.2.2 [("arch.noe.adevinta.com/preferred", "arm64")] "arm64" (by decide) (by decide)

/-- C7: in the embedded source a manifest-list descriptor whose
verification sub-request returns 404 fails the whole attempt with the
unexpected-status error of getImageManifest, although the claim (and the
dead skip branch of the very same loop) requires the descriptor to be
skipped silently with traversal continuing to the amd64 descriptor.  The
input below is a two-descriptor index whose first digest yields 404 and
whose second yields 200. -/
theorem listArchsWithAuth_404_fails_attempt :
    listArchsWithAuth
      (fun _ ref =>
        if ref = "tag" then
          Except.ok ⟨200, "application/vnd.oci.image.index.v1+json",
            some ⟨"", [⟨⟨"arm64", "linux", ""⟩, "sha-arm"⟩,
                       ⟨⟨"amd64", "linux", ""⟩, "sha-amd"⟩]⟩⟩
        else if ref = "sha-arm" then Except.ok ⟨404, "", none⟩
        else Except.ok ⟨200, "application/vnd.oci.image.manifest.v1+json", none⟩)
      ⟨"", ""⟩ "tag" = Except.error (RegError.unexpectedStatus 404) := by
  rfl

/-- C9 counterexample: on the single-manifest path the architecture field is
returned as-is, so a manifest reporting architecture unknown produces a
platform whose architecture is unknown in the ListArchs result. -/
theorem listArchs_single_manifest_unknown_cex :
    ListArchs
      (fun _ _ =>
        Except.ok ⟨200, "application/vnd.docker.distribution.manifest.v2+json",
          some ⟨"unknown", []⟩⟩)
      [⟨"", ""⟩] "tag" = Except.ok [⟨"unknown", "", ""⟩] := by
  rfl

theorem verifyManifests_mem {fetch : Fetch} {auth : AuthenticationToken} :
    ∀ (manifests : List ManifestRef) (acc platforms : List Platform),
      verifyManifests fetch auth manifests acc = .ok platforms →
      ∀ p ∈ platforms, p ∈ acc ∨ p.architecture ≠ "unknown"
  | [], acc, platforms, hok, p, hp => by
    simp only [verifyManifests] at hok
    cases hok
    exact Or.inl hp
  | m :: rest, acc, platforms, hok, p, hp => by
    cases hget : getImageManifest fetch auth m.digest with
    | error e =>
      simp only [verifyManifests, hget] at hok
      exact Except.noConfusion hok
    | ok resp =>
      simp only [verifyManifests, hget] at hok
      by_cases h200 : resp.statusCode = 200
      · rw [if_pos h200] at hok
        by_cases hunk : m.platform.architecture = "unknown"
        · rw [if_pos hunk] at hok
          exact verifyManifests_mem rest acc platforms hok p hp
        · rw [if_neg hunk] at hok
          rcases verifyManifests_mem rest (acc ++ [m.platform]) platforms hok p hp with hin | hne
          · rcases List.mem_append.1 hin with hin | hin
            · exact Or.inl hin
            · right
              rw [List.mem_singleton.1 hin]
              exact hunk
          · exact Or.inr hne
      · rw [if_neg h200] at hok
        by_cases h404 : resp.statusCode = 404
        · rw [if_pos h404] at hok
          exact verifyManifests_mem rest acc platforms hok p hp
        · rw [if_neg h404] at hok
          cases hok

/-- C9 amended: the unknown filter acts on the manifest-list path only: a
successful attempt whose top manifest response carries a manifest-list or
OCI-index content type returns no platform with architecture unknown (the
single-manifest path, by the counterexample, does not filter). -/
theorem listArchsWithAuth_list_filters_unknown (fetch : Fetch)
    (auth : AuthenticationToken) (tagRef : String) (resp : HttpResponse)
    (platforms : List Platform)
    (hfetch : fetch auth tagRef = .ok resp)
    (hct : resp.contentType = "application/vnd.docker.distribution.manifest.list.v2+json"
      ∨ resp.contentType = "application/vnd.oci.image.index.v1+json")
    (hok : listArchsWithAuth fetch auth tagRef = .ok platforms) :
    ∀ p ∈ platforms, p.architecture ≠ "unknown" := by
  intro p hp
  simp only [listArchsWithAuth, getImageManifest, hfetch] at hok
  by_cases h200 : resp.statusCode ≠ 200
  · rw [if_pos h200] at hok; cases hok
  · rw [if_neg h200] at hok
    cases hbody : resp.body with
    | none =>
      simp only [hbody] at hok
      exact Except.noConfusion hok
    | some response =>
      simp only [hbody] at hok
      rw [if_pos hct] at hok
      rcases verifyManifests_mem response.manifests [] platforms hok p hp with hin | hne
      · cases hin
      · exact hne

theorem listArchsWithAuth_list_filters_unknown_witness :
    listArchsWithAuth
      (fun _ ref =>
        if ref = "tag" then
          Except.ok ⟨200, "application/vnd.oci.image.index.v1+json",
            some ⟨"", [⟨⟨"unknown", "", ""⟩, "sha-unk"⟩,
                       ⟨⟨"arm64", "linux", ""⟩, "sha-arm"⟩]⟩⟩
        else Except.ok ⟨200, "application/vnd.oci.image.manifest.v1+json", none⟩)
      ⟨"", ""⟩ "tag" = Except.ok [⟨"arm64", "linux", ""⟩] ∧
    (∀ p ∈ [(⟨"arm64", "linux", ""⟩ : Platform)], p.architecture ≠ "unknown") := by
  refine ⟨by rfl, ?_⟩
  exact listArchsWithAuth_list_filters_unknown
    (fun _ ref =>
      if ref = "tag" then
        Except.ok ⟨200, "application/vnd.oci.image.index.v1+json",
          some ⟨"", [⟨⟨"unknown", "", ""⟩, "sha-unk"⟩,
                     ⟨⟨"arm64", "linux", ""⟩, "sha-arm"⟩]⟩⟩
      else Except.ok ⟨200, "application/vnd.oci.image.manifest.v1+json", none⟩)
    ⟨"", ""⟩ "tag"
    ⟨200, "application/vnd.oci.image.index.v1+json",
      some ⟨"", [⟨⟨"unknown", "", ""⟩, "sha-unk"⟩, ⟨⟨"arm64", "linux", ""⟩, "sha-arm"⟩]⟩⟩
    [⟨"arm64", "linux", ""⟩] (by rfl) (Or.inr (by decide)) (by rfl)

theorem scanPodImages_error (reg : String → String → Except String (List Platform))
    (secret nodeOs nodeArch : String) :
    ∀ (images : List String) (matching : Bool) (image : String) (e : String),
      image ∈ images → reg secret image = .error e →
      ∃ e2, scanPodImages reg secret nodeOs nodeArch images matching = .error e2
  | [], _, _, _, himg, _ => absurd himg (List.not_mem_nil _)
  | img :: rest, matching, image, e, himg, herr => by
    cases hreg : reg secret img with
    | error e0 =>
      exact ⟨e0, by simp only [scanPodImages, hreg]⟩
    | ok platforms =>
      rcases List.mem_cons.1 himg with heq | hmem
      · subst heq
        rw [herr] at hreg
        cases hreg
      · obtain ⟨e2, h2⟩ := scanPodImages_error reg secret nodeOs nodeArch rest
          (if nodeOs ≠ "" ∧ nodeArch ≠ "" ∧
            ¬ platforms.any (fun p => p.os = nodeOs ∧ p.architecture = nodeArch)
          then false else matching) image e hmem herr
        exact ⟨e2, by simp only [scanPodImages, hreg]; exact h2⟩

/-- C3: whenever a reconciliation step reaches the registry and some image
lookup fails, the reconciler returns the requeue-with-backoff result and the
pod delete call is never made. -/
theorem reconcile_registry_error_requeues_no_delete
    (reg : String → String → Except String (List Platform))
    (getNode : String → Except String Node) (secret : String) (pod : Pod)
    (namespacedName : String) (state : PodImagesState) (image e : String)
    (hnotcached : isImageCached state namespacedName = false)
    (hnotready : podIsReady pod = false)
    (himg : image ∈ GetContainerImages [pod.spec.initContainers, pod.spec.containers])
    (herr : reg secret image = .error e) :
    (Reconcile reg getNode secret (.found pod) namespacedName state).result =
      .requeueAfter10s ∧
    (Reconcile reg getNode secret (.found pod) namespacedName state).podDeleted = false := by
  have hmatch : ∃ e2,
      podScheduledOnMatchingNode reg getNode secret pod
        (GetContainerImages [pod.spec.initContainers, pod.spec.containers]) = .error e2 := by
    unfold podScheduledOnMatchingNode
    by_cases hnn : pod.spec.nodeName ≠ ""
    · rw [if_pos hnn]
      cases hnode : getNode pod.spec.nodeName with
      | error en => exact ⟨en, rfl⟩
      | ok node => exact scanPodImages_error reg secret _ _ _ true image e himg herr
    · rw [if_neg hnn]
      exact scanPodImages_error reg secret "" "" _ true image e himg herr
  obtain ⟨e2, h2⟩ := hmatch
  simp only [Reconcile, hnotcached, hnotready, h2, Bool.false_eq_true, or_self,
    if_false]
  exact ⟨trivial, trivial⟩

theorem reconcile_registry_error_requeues_no_delete_witness :
    (isImageCached [] "ns/pod" = false) ∧
    (podIsReady ⟨"pod", ⟨"node-1", none, none, [⟨"img"⟩], []⟩, "Pending", []⟩ = false) ∧
    ("img" ∈ GetContainerImages
      [([] : List Container), [(⟨"img"⟩ : Container)]]) ∧
    (Reconcile (fun _ _ => .error "registry down")
      (fun _ => .ok ⟨[("kubernetes.io/arch", "amd64"), ("kubernetes.io/os", "linux")]⟩)
      "" (.found ⟨"pod", ⟨"node-1", none, none, [⟨"img"⟩], []⟩, "Pending", []⟩)
      "ns/pod" []).result = .requeueAfter10s ∧
    (Reconcile (fun _ _ => .error "registry down")
      (fun _ => .ok ⟨[("kubernetes.io/arch", "amd64"), ("kubernetes.io/os", "linux")]⟩)
      "" (.found ⟨"pod", ⟨"node-1", none, none, [⟨"img"⟩], []⟩, "Pending", []⟩)
      "ns/pod" []).podDeleted = false := by
  refine ⟨by decide, by decide, by decide, ?_⟩
  exact reconcile_registry_error_requeues_no_delete
    (fun _ _ => .error "registry down")
    (fun _ => .ok ⟨[("kubernetes.io/arch", "amd64"), ("kubernetes.io/os", "linux")]⟩)
    "" ⟨"pod", ⟨"node-1", none, none, [⟨"img"⟩], []⟩, "Pending", []⟩
    "ns/pod" [] "img" "registry down" (by decide) (by decide) (by decide) (by rfl)

theorem computeCommonArchs_error (h : Handler)
    (reg : String → String → Except String (List Platform)) (secret : String) :
    ∀ (images : List String) (acc : Option (List String)) (image e : String),
      image ∈ images → reg secret image = .error e →
      ∃ e2, h.computeCommonArchs reg secret images acc = .error e2
  | [], _, _, _, himg, _ => absurd himg (List.not_mem_nil _)
  | img :: rest, acc, image, e, himg, herr => by
    cases hreg : reg secret img with
    | error e0 =>
      refine ⟨e0, ?_⟩
      cases acc <;> simp only [Handler.computeCommonArchs, hreg]
    | ok platforms =>
      rcases List.mem_cons.1 himg with heq | hmem
      · subst heq
        rw [herr] at hreg
        cases hreg
      · cases acc with
        | none =>
          obtain ⟨e2, h2⟩ := computeCommonArchs_error h reg secret rest
            (some (h.imageArchitectures platforms)) image e hmem herr
          exact ⟨e2, by simp only [Handler.computeCommonArchs, hreg]; exact h2⟩
        | some common =>
          obtain ⟨e2, h2⟩ := computeCommonArchs_error h reg secret rest
            (some (common.filter (fun k =>
              (h.imageArchitectures platforms).contains k))) image e hmem herr
          exact ⟨e2, by simp only [Handler.computeCommonArchs, hreg]; exact h2⟩

/-- C2 amended: when the spec is not already pinned and some image lookup
fails, updatePodSpec aborts on the first failing image: it returns nil (no
rejection) with the pod spec completely unmodified; in particular the
match-node-labels step is not applied and later images are not consulted. -/
theorem updatePodSpec_registry_error_unmodified (h : Handler)
    (reg : String → String → Except String (List Platform))
    (ns : String) (podLabels : LabelMap) (secret : String) (spec : PodSpec)
    (image e : String)
    (hname : spec.nodeName = "")
    (hsel : (PodSpecHasNodeArchitectureSelection spec).2 = false)
    (himg : image ∈ GetContainerImages [spec.containers, spec.initContainers])
    (herr : reg secret image = .error e) :
    h.updatePodSpec reg ns podLabels secret spec = (spec, .ok) := by
  obtain ⟨e2, h2⟩ := computeCommonArchs_error h reg secret
    (GetContainerImages [spec.containers, spec.initContainers]) none image e himg herr
  unfold Handler.updatePodSpec
  rw [hname]
  simp only [ne_eq, not_true_eq_false, if_false, hsel, h2]
  rfl

theorem updatePodSpec_registry_error_unmodified_witness :
    ((⟨"", none, none, [⟨"img"⟩], []⟩ : PodSpec).nodeName = "") ∧
    ((PodSpecHasNodeArchitectureSelection ⟨"", none, none, [⟨"img"⟩], []⟩).2 = false) ∧
    ("img" ∈ GetContainerImages [[(⟨"img"⟩ : Container)], ([] : List Container)]) ∧
    (Handler.updatePodSpec ⟨["gpu"], "", [], "linux"⟩ (fun _ _ => .error "down") "ns"
      [("gpu", "true")] "" ⟨"", none, none, [⟨"img"⟩], []⟩ =
      (⟨"", none, none, [⟨"img"⟩], []⟩, .ok)) := by
  refine ⟨by decide, by decide, by decide, ?_⟩
  exact updatePodSpec_registry_error_unmodified ⟨["gpu"], "", [], "linux"⟩
    (fun _ _ => .error "down") "ns" [("gpu", "true")] ""
    ⟨"", none, none, [⟨"img"⟩], []⟩ "img" "down"
    (by decide) (by decide) (by decide) (by rfl)

/-- C2 counterexample: on a registry failure the match-node-labels step is
not applied: with a configured match-node-label present on the pod the spec
comes back byte-identical although the claim requires the matching affinity
term (the step-eight application would have changed the spec). -/
theorem updatePodSpec_registry_error_skips_step8_cex :
    (Handler.updatePodSpec ⟨["gpu"], "", [], "linux"⟩ (fun _ _ => .error "down") "ns"
      [("gpu", "true")] "" ⟨"", none, none, [⟨"img"⟩], []⟩).1 =
      ⟨"", none, none, [⟨"img"⟩], []⟩ ∧
    Handler.addPodNodeMatchingLabels ⟨["gpu"], "", [], "linux"⟩ [("gpu", "true")]
      ⟨"", none, none, [⟨"img"⟩], []⟩ ≠ ⟨"", none, none, [⟨"img"⟩], []⟩ := by
  decide

theorem mapLookup_cons (kv : String × String) (rest : LabelMap) (k : String) :
    mapLookup (kv :: rest) k = if kv.1 = k then some kv.2 else mapLookup rest k := by
  by_cases hk : kv.1 = k
  · simp [mapLookup, List.find?, hk]
  · simp [mapLookup, List.find?, hk]

theorem addLabelsAux_id (podLabels : LabelMap) :
    ∀ ls : List String, (∀ k ∈ ls, mapLookup podLabels k = none) →
    ∀ spec : PodSpec,
      ls.foldl
        (fun spec key =>
          match mapLookup podLabels key with
          | none => spec
          | some val =>
            match spec.nodeSelector with
            | none => spec.appendAffinityTerm ⟨[⟨key, "In", [val]⟩], []⟩
            | some m => { spec with nodeSelector := some (mapInsert m key val) })
        spec = spec
  | [], _, _ => rfl
  | k :: ks, hnone, spec => by
    have hk := hnone k (List.mem_cons_self k ks)
    simp only [List.foldl_cons, hk]
    exact addLabelsAux_id podLabels ks
      (fun k2 h2 => hnone k2 (List.mem_cons_of_mem _ h2)) spec

theorem addPodNodeMatchingLabels_id (h : Handler) (podLabels : LabelMap)
    (hnone : ∀ k ∈ h.matchNodeLabels, mapLookup podLabels k = none)
    (spec : PodSpec) : h.addPodNodeMatchingLabels podLabels spec = spec :=
  addLabelsAux_id podLabels h.matchNodeLabels hnone spec

theorem mapLookup_map_replace (k v k2 : String) (hne : k2 ≠ k) :
    ∀ m : LabelMap,
      mapLookup (m.map (fun kv => if kv.1 = k then (k, v) else kv)) k2 = mapLookup m k2
  | [] => rfl
  | kv :: rest => by
    rw [List.map_cons]
    by_cases hk : kv.1 = k
    · rw [if_pos hk, mapLookup_cons, mapLookup_cons,
        if_neg (fun hc : (k, v).1 = k2 => hne hc.symm),
        if_neg (show ¬ kv.1 = k2 from fun hc => hne ((hk ▸ hc : k = k2)).symm)]
      exact mapLookup_map_replace k v k2 hne rest
    · rw [if_neg hk, mapLookup_cons, mapLookup_cons]
      by_cases hk2 : kv.1 = k2
      · rw [if_pos hk2, if_pos hk2]
      · rw [if_neg hk2, if_neg hk2]
        exact mapLookup_map_replace k v k2 hne rest

theorem mapLookup_append_single (k v k2 : String) (hne : k2 ≠ k) :
    ∀ m : LabelMap, mapLookup (m ++ [(k, v)]) k2 = mapLookup m k2
  | [] => by
    rw [List.nil_append, mapLookup_cons, if_neg (fun hc : (k, v).1 = k2 => hne hc.symm)]
  | kv :: rest => by
    rw [List.cons_append, mapLookup_cons, mapLookup_cons]
    by_cases hk2 : kv.1 = k2
    · rw [if_pos hk2, if_pos hk2]
    · rw [if_neg hk2, if_neg hk2]
      exact mapLookup_append_single k v k2 hne rest

theorem mapLookup_mapInsert_ne (m : LabelMap) (k v k2 : String) (hne : k2 ≠ k) :
    mapLookup (mapInsert m k v) k2 = mapLookup m k2 := by
  unfold mapInsert
  by_cases hany : m.any (fun kv => kv.1 = k) = true
  · rw [if_pos hany]
    exact mapLookup_map_replace k v k2 hne m
  · rw [if_neg hany]
    exact mapLookup_append_single k v k2 hne m

theorem mapLookup_map_replace_self (k v : String) :
    ∀ m : LabelMap, m.any (fun kv => kv.1 = k) = true →
      mapLookup (m.map (fun kv => if kv.1 = k then (k, v) else kv)) k = some v
  | [], h => by simp at h
  | kv :: rest, h => by
    rw [List.map_cons]
    by_cases hk : kv.1 = k
    · rw [if_pos hk, mapLookup_cons, if_pos rfl]
    · rw [if_neg hk, mapLookup_cons, if_neg hk]
      apply mapLookup_map_replace_self
      simpa [List.any_cons, hk] using h

theorem mapLookup_append_single_self (k v : String) :
    ∀ m : LabelMap, m.any (fun kv => kv.1 = k) = false →
      mapLookup (m ++ [(k, v)]) k = some v
  | [], _ => by rw [List.nil_append, mapLookup_cons, if_pos rfl]
  | kv :: rest, h => by
    rw [List.cons_append, mapLookup_cons]
    have hk : kv.1 ≠ k := by
      intro hc
      simp [List.any_cons, hc] at h
    rw [if_neg hk]
    apply mapLookup_append_single_self
    simpa [List.any_cons, hk] using h

theorem mapLookup_mapInsert_self (m : LabelMap) (k v : String) :
    mapLookup (mapInsert m k v) k = some v := by
  unfold mapInsert
  by_cases hany : m.any (fun kv => kv.1 = k) = true
  · rw [if_pos hany]
    exact mapLookup_map_replace_self k v m hany
  · rw [if_neg hany]
    have hf : m.any (fun kv => kv.1 = k) = false := by
      cases hb : m.any (fun kv => kv.1 = k) with
      | false => rfl
      | true => exact absurd hb hany
    exact mapLookup_append_single_self k v m hf

theorem nodeSelectorLookup_getD (s : PodSpec) (k : String) :
    mapLookup (s.nodeSelector.getD []) k = s.nodeSelectorLookup k := by
  cases hns : s.nodeSelector with
  | none => simp [PodSpec.nodeSelectorLookup, hns, mapLookup, List.find?]
  | some m => simp [PodSpec.nodeSelectorLookup, hns]

theorem hasSelection_false_parts (s : PodSpec)
    (hsel : (PodSpecHasNodeArchitectureSelection s).2 = false) :
    (s.nodeSelectorLookup ("beta." ++ archKey)).isSome = false ∧
    (s.nodeSelectorLookup archKey).isSome = false := by
  unfold PodSpecHasNodeArchitectureSelection at hsel
  by_cases h1 : (s.nodeSelectorLookup ("beta." ++ archKey)).isSome = true
  · rw [if_pos h1] at hsel
    simp at hsel
  · by_cases h2 : (s.nodeSelectorLookup archKey).isSome = true
    · rw [if_neg h1, if_pos h2] at hsel
      simp at hsel
    · exact ⟨by simpa using h1, by simpa using h2⟩

theorem hasSelection_false_terms (s : PodSpec) (aff : Affinity) (na : NodeAffinity)
    (sel : NodeSelector) (hsel : (PodSpecHasNodeArchitectureSelection s).2 = false)
    (haff : s.affinity = some aff) (hna : aff.nodeAffinity = some na)
    (hreq : na.requiredDuringSchedulingIgnoredDuringExecution = some sel) :
    (termsHaveArchSelection sel.nodeSelectorTerms).2 = false := by
  obtain ⟨h1, h2⟩ := hasSelection_false_parts s hsel
  unfold PodSpecHasNodeArchitectureSelection at hsel
  rw [if_neg (by simp [h1]), if_neg (by simp [h2])] at hsel
  simp only [haff] at hsel
  simp only [hna] at hsel
  simp only [hreq] at hsel
  exact hsel

theorem termsHaveArchSelection_append (vals : List String) :
    ∀ ts : List NodeSelectorTerm, (termsHaveArchSelection ts).2 = false →
      (termsHaveArchSelection
        (ts ++ [⟨[⟨archKey, "In", vals⟩], []⟩])).2 = true
  | [], _ => by
    simp [termsHaveArchSelection, termHasArchSelection]
  | t :: ts, hfalse => by
    rw [List.cons_append]
    cases hterm : termHasArchSelection t with
    | some r =>
      simp [termsHaveArchSelection, hterm] at hfalse
    | none =>
      simp only [termsHaveArchSelection, hterm]
      exact termsHaveArchSelection_append vals ts
        (by simpa [termsHaveArchSelection, hterm] using hfalse)

theorem existingAffinityTerms_false (spec : PodSpec)
    (hsel : (PodSpecHasNodeArchitectureSelection spec).2 = false) :
    (termsHaveArchSelection
      (((spec.affinity.getD ⟨none⟩).nodeAffinity.getD
        ⟨none⟩).requiredDuringSchedulingIgnoredDuringExecution.getD
          ⟨[]⟩).nodeSelectorTerms).2 = false := by
  cases haff : spec.affinity with
  | none => rfl
  | some aff =>
    cases hna : aff.nodeAffinity with
    | none =>
      simp only [Option.getD_some, hna, Option.getD_none]
      rfl
    | some na =>
      cases hreq : na.requiredDuringSchedulingIgnoredDuringExecution with
      | none =>
        simp only [Option.getD_some, hna, hreq, Option.getD_none]
        rfl
      | some sel =>
        simp only [Option.getD_some, hna, hreq]
        exact hasSelection_false_terms spec aff na sel hsel haff hna hreq

theorem hasSelection_appendArchTerm (spec : PodSpec) (vals : List String)
    (hsel : (PodSpecHasNodeArchitectureSelection spec).2 = false) :
    (PodSpecHasNodeArchitectureSelection
      (spec.appendAffinityTerm ⟨[⟨archKey, "In", vals⟩], []⟩)).2 = true := by
  obtain ⟨h1, h2⟩ := hasSelection_false_parts spec hsel
  have hlook : ∀ k,
      (spec.appendAffinityTerm
        ⟨[⟨archKey, "In", vals⟩], []⟩).nodeSelectorLookup k =
        spec.nodeSelectorLookup k := fun _ => rfl
  unfold PodSpecHasNodeArchitectureSelection
  rw [if_neg (by rw [hlook]; simp [h1]), if_neg (by rw [hlook]; simp [h2])]
  exact termsHaveArchSelection_append vals _ (existingAffinityTerms_false spec hsel)

theorem hasSelection_after_insert_arch (spec : PodSpec) (pref : String)
    (hsel : (PodSpecHasNodeArchitectureSelection spec).2 = false) :
    (PodSpecHasNodeArchitectureSelection
      { spec with nodeSelector :=
          (some (mapInsert (spec.nodeSelector.getD []) archKey pref)) }).2 = true := by
  obtain ⟨h1, _⟩ := hasSelection_false_parts spec hsel
  have hbeta : (({ spec with nodeSelector :=
      (some (mapInsert (spec.nodeSelector.getD []) archKey pref)) } :
        PodSpec).nodeSelectorLookup ("beta." ++ archKey)).isSome = false := by
    show (mapLookup (mapInsert (spec.nodeSelector.getD []) archKey pref)
      ("beta." ++ archKey)).isSome = false
    rw [mapLookup_mapInsert_ne _ _ _ _ (by decide), nodeSelectorLookup_getD]
    exact h1
  have harch : ({ spec with nodeSelector :=
      (some (mapInsert (spec.nodeSelector.getD []) archKey pref)) } :
        PodSpec).nodeSelectorLookup archKey = some pref := by
    show mapLookup (mapInsert (spec.nodeSelector.getD []) archKey pref) archKey = some pref
    exact mapLookup_mapInsert_self _ _ _
  unfold PodSpecHasNodeArchitectureSelection
  rw [if_neg (by simp [hbeta]), if_pos (by simp [harch])]

theorem updatePodSpec_of_nodeName (h : Handler)
    (reg : String → String → Except String (List Platform)) (ns : String)
    (podLabels : LabelMap) (secret : String) (s : PodSpec)
    (hs : s.nodeName ≠ "") : h.updatePodSpec reg ns podLabels secret s = (s, .ok) := by
  unfold Handler.updatePodSpec
  rw [if_pos hs]

theorem updatePodSpec_of_selection (h : Handler)
    (reg : String → String → Except String (List Platform)) (ns : String)
    (podLabels : LabelMap) (secret : String) (s : PodSpec)
    (hs : s.nodeName = "") (hsel : (PodSpecHasNodeArchitectureSelection s).2 = true) :
    h.updatePodSpec reg ns podLabels secret s =
      (h.addPodNodeMatchingLabels podLabels s, .ok) := by
  unfold Handler.updatePodSpec
  rw [if_neg (by simp [hs]), if_pos hsel]

theorem updatePodSpec_main_eq (h : Handler)
    (reg : String → String → Except String (List Platform)) (ns : String)
    (podLabels : LabelMap) (secret : String) (s : PodSpec)
    (hs : s.nodeName = "") (hsel : (PodSpecHasNodeArchitectureSelection s).2 = false) :
    h.updatePodSpec reg ns podLabels secret s =
      (match h.computeCommonArchs reg secret
          (GetContainerImages [s.containers, s.initContainers]) none with
       | .error _ => (s, .ok)
       | .ok none => (h.addPodNodeMatchingLabels podLabels s, .ok)
       | .ok (some common) =>
         if common.isEmpty then
           (h.addPodNodeMatchingLabels podLabels s,
             .rejection "could not find a common image architecture across all containers")
         else if common.contains (h.resolvePreferredArch podLabels).1 ∧
             (h.resolvePreferredArch podLabels).2.1 then
           (h.addPodNodeMatchingLabels podLabels
             { s with nodeSelector := some (mapInsert (s.nodeSelector.getD []) archKey
                 (h.resolvePreferredArch podLabels).1) }, .ok)
         else if (h.resolvePreferredArch podLabels).2.1 ∧
             ¬ (h.resolvePreferredArch podLabels).2.2 then
           (h.addPodNodeMatchingLabels podLabels
             (s.appendAffinityTerm ⟨[⟨archKey, "In", keys common⟩], []⟩),
             .warning ("could not select preferred arch: " ++
               (h.resolvePreferredArch podLabels).1))
         else
           (h.addPodNodeMatchingLabels podLabels
             (s.appendAffinityTerm ⟨[⟨archKey, "In", keys common⟩], []⟩), .ok)) := by
  unfold Handler.updatePodSpec
  rw [if_neg (by simp [hs]), if_neg (by simp [hsel])]

/-- C4 counterexample: the resolver is not idempotent.  With one configured
match-node-label present on the pod and a spec with a nil node selector, the
first pass appends the architecture affinity term and the label term; the
second pass takes the already-selected skip path but re-runs the
match-node-labels step, appending the label term a second time. -/
theorem updatePodSpec_not_idempotent_cex :
    (Handler.updatePodSpec ⟨["gpu"], "", [], "linux"⟩
        (fun _ _ => .ok [⟨"amd64", "linux", ""⟩]) "ns" [("gpu", "true")] ""
        ((Handler.updatePodSpec ⟨["gpu"], "", [], "linux"⟩
          (fun _ _ => .ok [⟨"amd64", "linux", ""⟩]) "ns" [("gpu", "true")] ""
          ⟨"", none, none, [⟨"img"⟩], []⟩).1)).1 ≠
      (Handler.updatePodSpec ⟨["gpu"], "", [], "linux"⟩
        (fun _ _ => .ok [⟨"amd64", "linux", ""⟩]) "ns" [("gpu", "true")] ""
        ⟨"", none, none, [⟨"img"⟩], []⟩).1 := by
  decide

/-- C4 amended: the resolver is idempotent whenever no configured
match-node-label key occurs in the pod labels: under that assumption a
second application returns the first pass's spec unchanged, on every input
and every registry behaviour.  (Unconditional idempotence fails: the
counterexample exhibits a workload with a matching label whose placement
landed in a node-affinity term, for which the second pass appends the same
node-label term again.) -/
theorem updatePodSpec_idempotent_no_matching_labels (h : Handler)
    (reg : String → String → Except String (List Platform)) (ns : String)
    (podLabels : LabelMap) (secret : String) (spec : PodSpec)
    (hnone : ∀ k ∈ h.matchNodeLabels, mapLookup podLabels k = none) :
    (h.updatePodSpec reg ns podLabels secret
      (h.updatePodSpec reg ns podLabels secret spec).1).1 =
      (h.updatePodSpec reg ns podLabels secret spec).1 := by
  have hid := addPodNodeMatchingLabels_id h podLabels hnone
  by_cases hname : spec.nodeName = ""
  · by_cases hsel : (PodSpecHasNodeArchitectureSelection spec).2 = true
    · have he := updatePodSpec_of_selection h reg ns podLabels secret spec hname hsel
      rw [he, hid spec]
      rw [he, hid spec]
    · have hselF : (PodSpecHasNodeArchitectureSelection spec).2 = false := by
        simpa using hsel
      have he := updatePodSpec_main_eq h reg ns podLabels secret spec hname hselF
      cases hcc : h.computeCommonArchs reg secret
          (GetContainerImages [spec.containers, spec.initContainers]) none with
      | error e =>
        rw [he, hcc]
        rw [he, hcc]
      | ok acc =>
        cases acc with
        | none =>
          rw [he, hcc]
          simp only [hid spec]
          rw [he, hcc]
          simp only [hid spec]
        | some common =>
          by_cases hemp : common.isEmpty = true
          · rw [he, hcc]
            simp only [if_pos hemp, hid spec]
            rw [he, hcc]
            simp only [if_pos hemp, hid spec]
          · by_cases hpref : common.contains (h.resolvePreferredArch podLabels).1 = true ∧
                (h.resolvePreferredArch podLabels).2.1 = true
            · rw [he, hcc]
              simp only [if_neg hemp, if_pos hpref, hid]
              have hsel2 := hasSelection_after_insert_arch spec
                (h.resolvePreferredArch podLabels).1 hselF
              rw [updatePodSpec_of_selection h reg ns podLabels secret
                { spec with nodeSelector := (some (mapInsert (spec.nodeSelector.getD [])
                  archKey (h.resolvePreferredArch podLabels).1)) }
                (by exact hname) hsel2]
              simp only [hid]
            · rw [he, hcc]
              simp only [if_neg hemp, if_neg hpref, hid]
              have hsel2 := hasSelection_appendArchTerm spec (keys common) hselF
              by_cases hwarn : (h.resolvePreferredArch podLabels).2.1 = true ∧
                  ¬ (h.resolvePreferredArch podLabels).2.2 = true
              · simp only [if_pos hwarn]
                rw [updatePodSpec_of_selection h reg ns podLabels secret
                  (spec.appendAffinityTerm ⟨[⟨archKey, "In", keys common⟩], []⟩)
                  (by exact hname) hsel2]
                simp only [hid]
              · simp only [if_neg hwarn]
                rw [updatePodSpec_of_selection h reg ns podLabels secret
                  (spec.appendAffinityTerm ⟨[⟨archKey, "In", keys common⟩], []⟩)
                  (by exact hname) hsel2]
                simp only [hid]
  · have hne : spec.nodeName ≠ "" := hname
    rw [updatePodSpec_of_nodeName h reg ns podLabels secret spec hne]
    rw [updatePodSpec_of_nodeName h reg ns podLabels secret spec hne]

theorem updatePodSpec_idempotent_no_matching_labels_witness :
    (∀ k ∈ (⟨["gpu"], "", [], "linux"⟩ : Handler).matchNodeLabels,
      mapLookup [("team", "search")] k = none) ∧
    (Handler.updatePodSpec ⟨["gpu"], "", [], "linux"⟩
        (fun _ _ => .ok [⟨"amd64", "linux", ""⟩]) "ns" [("team", "search")] ""
        ((Handler.updatePodSpec ⟨["gpu"], "", [], "linux"⟩
          (fun _ _ => .ok [⟨"amd64", "linux", ""⟩]) "ns" [("team", "search")] ""
          ⟨"", none, none, [⟨"img"⟩], []⟩).1)).1 =
      (Handler.updatePodSpec ⟨["gpu"], "", [], "linux"⟩
        (fun _ _ => .ok [⟨"amd64", "linux", ""⟩]) "ns" [("team", "search")] ""
        ⟨"", none, none, [⟨"img"⟩], []⟩).1 := by
  refine ⟨by decide, ?_⟩
  exact updatePodSpec_idempotent_no_matching_labels ⟨["gpu"], "", [], "linux"⟩
    (fun _ _ => .ok [⟨"amd64", "linux", ""⟩]) "ns" [("team", "search")] ""
    ⟨"", none, none, [⟨"img"⟩], []⟩ (by decide)

theorem insertArch_nodup (s : List String) (a : String) (hs : s.Nodup) :
    (insertArch s a).Nodup := by
  unfold insertArch
  by_cases hc : s.contains a = true
  · rwa [if_pos hc]
  · rw [if_neg hc]
    have ha : a ∉ s := by simpa using hc
    simp [List.nodup_append, hs, ha]

theorem archsFold_nodup (h : Handler) :
    ∀ (platforms : List Platform) (acc : List String), acc.Nodup →
      (platforms.foldl
        (fun acc p =>
          if p.os ≠ "" ∧ p.os ≠ h.systemOS then acc
          else if ¬ h.isArchSupported p.architecture then acc
          else insertArch acc p.architecture)
        acc).Nodup
  | [], _, hnd => hnd
  | p :: rest, acc, hnd => by
    rw [List.foldl_cons]
    apply archsFold_nodup
    by_cases h1 : p.os ≠ "" ∧ p.os ≠ h.systemOS
    · rwa [if_pos h1]
    · rw [if_neg h1]
      by_cases h2 : ¬ h.isArchSupported p.architecture = true
      · rwa [if_pos h2]
      · rw [if_neg h2]
        exact insertArch_nodup acc p.architecture hnd

theorem imageArchitectures_nodup (h : Handler) (platforms : List Platform) :
    (h.imageArchitectures platforms).Nodup :=
  archsFold_nodup h platforms [] List.nodup_nil

theorem archsOfImage_nodup (h : Handler)
    (reg : String → String → Except String (List Platform)) (secret image : String) :
    (archsOfImage h reg secret image).Nodup := by
  unfold archsOfImage
  cases reg secret image with
  | ok platforms => exact imageArchitectures_nodup h platforms
  | error e => exact List.nodup_nil

theorem computeCommonArchs_ok (h : Handler)
    (reg : String → String → Except String (List Platform)) (secret : String) :
    ∀ (images : List String) (acc : List String),
      (∀ image ∈ images, ∃ ps, reg secret image = .ok ps) → acc.Nodup →
      ∃ l, h.computeCommonArchs reg secret images (some acc) = .ok (some l) ∧
        l.Nodup ∧
        ∀ b, b ∈ l ↔ b ∈ acc ∧ ∀ image ∈ images, b ∈ archsOfImage h reg secret image
  | [], acc, _, hnd => ⟨acc, rfl, hnd, by simp⟩
  | img :: rest, acc, hok, hnd => by
    obtain ⟨ps, hps⟩ := hok img (List.mem_cons_self img rest)
    have harchs : archsOfImage h reg secret img = h.imageArchitectures ps := by
      unfold archsOfImage
      rw [hps]
    obtain ⟨l, hl, hlnd, hmem⟩ := computeCommonArchs_ok h reg secret rest
      (acc.filter (fun k => (h.imageArchitectures ps).contains k))
      (fun i hi => hok i (List.mem_cons_of_mem img hi))
      (List.Nodup.filter _ hnd)
    refine ⟨l, ?_, hlnd, ?_⟩
    · rw [show h.computeCommonArchs reg secret (img :: rest) (some acc) =
          h.computeCommonArchs reg secret rest
            (some (acc.filter (fun k => (h.imageArchitectures ps).contains k)))
        by simp only [Handler.computeCommonArchs, hps]]
      exact hl
    · intro b
      rw [hmem b]
      simp only [List.mem_filter]
      constructor
      · rintro ⟨⟨hbacc, hbimg⟩, hrest⟩
        refine ⟨hbacc, ?_⟩
        intro image himage
        rcases List.mem_cons.1 himage with heq | hmem2
        · subst heq
          rw [harchs]
          simpa using hbimg
        · exact hrest image hmem2
      · rintro ⟨hbacc, hall⟩
        refine ⟨⟨hbacc, ?_⟩, fun image hi => hall image (List.mem_cons_of_mem img hi)⟩
        have hbin := hall img (List.mem_cons_self img rest)
        rw [harchs] at hbin
        simpa using hbin

theorem keys_eq_of_mem_iff {l1 l2 : List String} (h1 : l1.Nodup) (h2 : l2.Nodup)
    (hmem : ∀ a, a ∈ l1 ↔ a ∈ l2) : keys l1 = keys l2 := by
  haveI ht : IsTotal String (fun a b => strLe a b = true) := ⟨fun a b => strLe_total a b⟩
  haveI htr : IsTrans String (fun a b => strLe a b = true) :=
    ⟨fun _ _ _ hab hbc => strLe_trans hab hbc⟩
  haveI has : IsAntisymm String (fun a b => strLe a b = true) :=
    ⟨fun _ _ hab hba => strLe_antisymm hab hba⟩
  have hperm : l1.Perm l2 := (List.perm_ext_iff_of_nodup h1 h2).2 hmem
  exact List.eq_of_perm_of_sorted
    ((List.perm_insertionSort _ l1).trans (hperm.trans (List.perm_insertionSort _ l2).symm))
    (List.sorted_insertionSort _ l1) (List.sorted_insertionSort _ l2)

theorem keys_mem (l : List String) (b : String) : b ∈ keys l ↔ b ∈ l :=
  (List.perm_insertionSort _ l).mem_iff

/-- C1: for every pod spec with no node name, no pre-existing architecture
selection, at least one image, all of whose lookups succeed, and whose
filtered architecture intersection is non-empty: when a preferred
architecture was resolved (pod label or system default) and lies in the
intersection, updatePodSpec sets the kubernetes.io/arch node selector to it;
otherwise it appends exactly one node selector term whose single match
expression has key kubernetes.io/arch, operator In and values equal to the
intersection sorted lexicographically (specCommonArchs); in both branches
the only further change is the match-node-labels step and the result is
never the rejection. -/
theorem updatePodSpec_arch_placement (h : Handler)
    (reg : String → String → Except String (List Platform)) (ns : String)
    (podLabels : LabelMap) (secret : String) (spec : PodSpec)
    (hname : spec.nodeName = "")
    (hsel : (PodSpecHasNodeArchitectureSelection spec).2 = false)
    (himgs : GetContainerImages [spec.containers, spec.initContainers] ≠ [])
    (hok : ∀ image ∈ GetContainerImages [spec.containers, spec.initContainers],
      ∃ ps, reg secret image = .ok ps)
    (hne : specCommonArchs h reg secret
      (GetContainerImages [spec.containers, spec.initContainers]) ≠ []) :
    ((h.resolvePreferredArch podLabels).2.1 = true ∧
        (h.resolvePreferredArch podLabels).1 ∈ specCommonArchs h reg secret
          (GetContainerImages [spec.containers, spec.initContainers]) →
      (h.updatePodSpec reg ns podLabels secret spec).1 =
        h.addPodNodeMatchingLabels podLabels
          { spec with nodeSelector := (some (mapInsert (spec.nodeSelector.getD [])
              archKey (h.resolvePreferredArch podLabels).1)) } ∧
      (h.updatePodSpec reg ns podLabels secret spec).2 = .ok) ∧
    (¬ ((h.resolvePreferredArch podLabels).2.1 = true ∧
        (h.resolvePreferredArch podLabels).1 ∈ specCommonArchs h reg secret
          (GetContainerImages [spec.containers, spec.initContainers])) →
      (h.updatePodSpec reg ns podLabels secret spec).1 =
        h.addPodNodeMatchingLabels podLabels
          (spec.appendAffinityTerm ⟨[⟨archKey, "In",
            specCommonArchs h reg secret
              (GetContainerImages [spec.containers, spec.initContainers])⟩], []⟩) ∧
      ∀ msg, (h.updatePodSpec reg ns podLabels secret spec).2 ≠ .rejection msg) := by
  have hmain := updatePodSpec_main_eq h reg ns podLabels secret spec hname hsel
  cases himages : GetContainerImages [spec.containers, spec.initContainers] with
  | nil => exact absurd himages himgs
  | cons img0 rest =>
    rw [himages] at hmain hok hne
    obtain ⟨ps0, hps0⟩ := hok img0 (List.mem_cons_self img0 rest)
    have harchs0 : archsOfImage h reg secret img0 = h.imageArchitectures ps0 := by
      unfold archsOfImage
      rw [hps0]
    have hstep : h.computeCommonArchs reg secret (img0 :: rest) none =
        h.computeCommonArchs reg secret rest (some (h.imageArchitectures ps0)) := by
      simp only [Handler.computeCommonArchs, hps0]
    obtain ⟨l, hl, hlnd, hmem⟩ := computeCommonArchs_ok h reg secret rest
      (h.imageArchitectures ps0)
      (fun i hi => hok i (List.mem_cons_of_mem img0 hi))
      (imageArchitectures_nodup h ps0)
    have hloop : h.computeCommonArchs reg secret (img0 :: rest) none = .ok (some l) := by
      rw [hstep]
      exact hl
    have hmem2 : ∀ b, b ∈ l ↔
        b ∈ archsOfImage h reg secret img0 ∧
          ∀ image ∈ img0 :: rest, b ∈ archsOfImage h reg secret image := by
      intro b
      rw [hmem b, harchs0]
      constructor
      · rintro ⟨hb0, hbrest⟩
        refine ⟨hb0, ?_⟩
        intro image hi
        rcases List.mem_cons.1 hi with heq | hi2
        · subst heq
          rwa [harchs0]
        · exact hbrest image hi2
      · rintro ⟨hb0, hball⟩
        exact ⟨hb0, fun image hi => hball image (List.mem_cons_of_mem img0 hi)⟩
    have hspecmem : ∀ b, b ∈ specCommonArchs h reg secret (img0 :: rest) ↔ b ∈ l := by
      intro b
      unfold specCommonArchs
      rw [keys_mem, List.mem_filter, hmem2 b]
      constructor
      · rintro ⟨hb0, hball⟩
        refine ⟨hb0, ?_⟩
        intro image hi
        have := (List.all_eq_true.1 hball) image hi
        simpa using this
      · rintro ⟨hb0, hball⟩
        refine ⟨hb0, ?_⟩
        rw [List.all_eq_true]
        intro image hi
        simpa using hball image hi
    have hkeys : keys l = specCommonArchs h reg secret (img0 :: rest) := by
      unfold specCommonArchs
      apply keys_eq_of_mem_iff hlnd
        (List.Nodup.filter _ (archsOfImage_nodup h reg secret img0))
      intro b
      rw [hmem2 b, List.mem_filter]
      constructor
      · rintro ⟨hb0, hball⟩
        refine ⟨hb0, ?_⟩
        rw [List.all_eq_true]
        intro image hi
        simpa using hball image hi
      · rintro ⟨hb0, hball⟩
        refine ⟨hb0, ?_⟩
        intro image hi
        have := (List.all_eq_true.1 hball) image hi
        simpa using this
    have hlne : l.isEmpty = false := by
      obtain ⟨b, hb⟩ := List.exists_mem_of_ne_nil _ hne
      have hbl : b ∈ l := (hspecmem b).1 hb
      have : l ≠ [] := fun hc => by
        rw [hc] at hbl
        exact List.not_mem_nil b hbl
      simpa using this
    constructor
    · rintro ⟨hdef, hpresent⟩
      have hcontains : l.contains (h.resolvePreferredArch podLabels).1 = true := by
        simpa using (hspecmem _).1 hpresent
      rw [hmain, hloop]
      simp only [hlne, Bool.false_eq_true, if_false, hcontains, hdef, and_self, if_true]
    · intro hnotpref
      rw [hmain, hloop]
      have hcond : ¬ (l.contains (h.resolvePreferredArch podLabels).1 = true ∧
          (h.resolvePreferredArch podLabels).2.1 = true) := by
        rintro ⟨hc, hd⟩
        exact hnotpref ⟨hd, (hspecmem _).2 (by simpa using hc)⟩
      simp only [hlne, Bool.false_eq_true, if_false, if_neg hcond, hkeys]
      by_cases hwarn : (h.resolvePreferredArch podLabels).2.1 = true ∧
          ¬ (h.resolvePreferredArch podLabels).2.2 = true
      · rw [if_pos hwarn]
        exact ⟨rfl, fun msg hc => UpdateResult.noConfusion hc⟩
      · rw [if_neg hwarn]
        exact ⟨rfl, fun msg hc => UpdateResult.noConfusion hc⟩

theorem updatePodSpec_arch_placement_witness :
    ((⟨"", none, none, [⟨"ubuntu"⟩], []⟩ : PodSpec).nodeName = "") ∧
    ((PodSpecHasNodeArchitectureSelection ⟨"", none, none, [⟨"ubuntu"⟩], []⟩).2 = false) ∧
    (specCommonArchs ⟨[], "amd64", [], "linux"⟩
      (fun _ _ => .ok [⟨"arm64", "linux", ""⟩, ⟨"amd64", "linux", ""⟩,
        ⟨"amd64", "windows", ""⟩]) ""
      (GetContainerImages [[(⟨"ubuntu"⟩ : Container)], []]) = ["amd64", "arm64"]) ∧
    ((Handler.updatePodSpec ⟨[], "amd64", [], "linux"⟩
      (fun _ _ => .ok [⟨"arm64", "linux", ""⟩, ⟨"amd64", "linux", ""⟩,
        ⟨"amd64", "windows", ""⟩]) "ns" [] ""
      ⟨"", none, none, [⟨"ubuntu"⟩], []⟩).1 =
        ⟨"", some [(archKey, "amd64")], none, [⟨"ubuntu"⟩], []⟩) := by
  refine ⟨rfl, by decide, by decide, ?_⟩
  have h := (updatePodSpec_arch_placement ⟨[], "amd64", [], "linux"⟩
    (fun _ _ => .ok [⟨"arm64", "linux", ""⟩, ⟨"amd64", "linux", ""⟩,
      ⟨"amd64", "windows", ""⟩]) "ns" [] "" ⟨"", none, none, [⟨"ubuntu"⟩], []⟩
    rfl (by decide) (by decide)
    (fun image _ => ⟨[⟨"arm64", "linux", ""⟩, ⟨"amd64", "linux", ""⟩,
      ⟨"amd64", "windows", ""⟩], rfl⟩)
    (by decide)).1 (by decide)
  rw [h.1]
  decide

theorem goSplitChars_ne_nil (sep : Char) : ∀ s : List Char, goSplitChars sep s ≠ []
  | [] => by simp [goSplitChars]
  | c :: rest => by
    unfold goSplitChars
    by_cases hc : c = sep
    · simp [hc]
    · rw [if_neg hc]
      cases hsplit : goSplitChars sep rest with
      | nil => simp
      | cons s ss => simp

theorem goSplitChars_head (sep : Char) :
    ∀ s : List Char, (goSplitChars sep s).headD [] = (splitFirst sep s).1
  | [] => rfl
  | c :: rest => by
    by_cases hc : c = sep
    · simp [goSplitChars, splitFirst, hc]
    · have ih := goSplitChars_head sep rest
      cases hsplit : goSplitChars sep rest with
      | nil => exact absurd hsplit (goSplitChars_ne_nil sep rest)
      | cons s ss =>
        rw [hsplit] at ih
        simp only [List.headD_cons] at ih
        simp only [goSplitChars, splitFirst, if_neg hc, hsplit, List.headD_cons]
        rw [ih]

theorem goSplitChars_second (sep : Char) :
    ∀ s : List Char,
      ((goSplitChars sep s).drop 1).headD [] =
        (match (splitFirst sep s).2 with
         | some r => (splitFirst sep r).1
         | none => [])
  | [] => rfl
  | c :: rest => by
    by_cases hc : c = sep
    · simp only [goSplitChars, splitFirst, if_pos hc, List.drop_succ_cons, List.drop_zero]
      exact goSplitChars_head sep rest
    · have ih := goSplitChars_second sep rest
      cases hsplit : goSplitChars sep rest with
      | nil => exact absurd hsplit (goSplitChars_ne_nil sep rest)
      | cons s ss =>
        rw [hsplit] at ih
        simp only [List.drop_succ_cons, List.drop_zero] at ih
        simp only [goSplitChars, splitFirst, if_neg hc, hsplit, List.drop_succ_cons,
          List.drop_zero]
        exact ih

theorem goSplitChars_length_lt (sep : Char) :
    ∀ s : List Char, (goSplitChars sep s).length < 2 ↔ (splitFirst sep s).2 = none
  | [] => by simp [goSplitChars, splitFirst]
  | c :: rest => by
    by_cases hc : c = sep
    · simp only [goSplitChars, splitFirst, if_pos hc]
      constructor
      · intro hl
        exfalso
        have hne := goSplitChars_ne_nil sep rest
        have : 1 ≤ (goSplitChars sep rest).length := by
          cases hsplit : goSplitChars sep rest with
          | nil => exact absurd hsplit hne
          | cons s ss => simp
        simp only [List.length_cons] at hl
        omega
      · intro hnone
        exact Option.noConfusion hnone
    · have ih := goSplitChars_length_lt sep rest
      cases hsplit : goSplitChars sep rest with
      | nil => exact absurd hsplit (goSplitChars_ne_nil sep rest)
      | cons s ss =>
        rw [hsplit] at ih
        simp only [goSplitChars, splitFirst, if_neg hc, hsplit, List.length_cons] at ih ⊢
        exact ih

/-- C8 amended: imageMatchesLoginPattern agrees with loginPatternSpec on all
inputs: the host glob follows Go filepath.Match semantics in which a star
matches any run of non-slash characters and may span several dot-separated
segments; a non-empty pattern port must equal the registry port; and a
pattern path prevents matching exactly when its first segment is a prefix of
the image (the inverse of the prefix condition the claim states). -/
theorem imageMatchesLoginPattern_characterization (registry image pattern : List Char) :
    imageMatchesLoginPattern registry image pattern =
      loginPatternSpec registry image pattern := by
  simp only [imageMatchesLoginPattern, loginPatternSpec, goSplitChars_head,
    goSplitChars_second, goSplitChars_length_lt]
  cases hm : filepathMatch (splitFirst ':' (splitFirst '/' pattern).1).1
      (splitFirst ':' registry).1 with
  | none => simp
  | some matched =>
    cases matched with
    | false => simp
    | true =>
      cases hq : (splitFirst ':' registry).2 with
      | none =>
        cases hpp : (splitFirst ':' (splitFirst '/' pattern).1).2 with
        | none =>
          cases hsp : (splitFirst '/' pattern).2 with
          | none => simp
          | some sr =>
            by_cases hSe : (splitFirst '/' sr).1 = [] <;>
              by_cases hPref : (splitFirst '/' sr).1.isPrefixOf image = true <;>
              simp [hSe, hPref]
        | some pr =>
          cases hsp : (splitFirst '/' pattern).2 with
          | none =>
            by_cases hPe : (splitFirst ':' pr).1 = [] <;> simp [hPe]
          | some sr =>
            by_cases hPe : (splitFirst ':' pr).1 = [] <;>
              by_cases hSe : (splitFirst '/' sr).1 = [] <;>
              by_cases hPref : (splitFirst '/' sr).1.isPrefixOf image = true <;>
              simp [hPe, hSe, hPref]
      | some rr =>
        cases hpp : (splitFirst ':' (splitFirst '/' pattern).1).2 with
        | none =>
          cases hsp : (splitFirst '/' pattern).2 with
          | none => simp
          | some sr =>
            by_cases hSe : (splitFirst '/' sr).1 = [] <;>
              by_cases hPref : (splitFirst '/' sr).1.isPrefixOf image = true <;>
              simp [hSe, hPref]
        | some pr =>
          cases hsp : (splitFirst '/' pattern).2 with
          | none =>
            by_cases hPe : (splitFirst ':' pr).1 = [] <;>
              by_cases hRP : (splitFirst ':' rr).1 = (splitFirst ':' pr).1 <;>
              simp [hPe, hRP]
          | some sr =>
            by_cases hPe : (splitFirst ':' pr).1 = [] <;>
              by_cases hRP : (splitFirst ':' rr).1 = (splitFirst ':' pr).1 <;>
              by_cases hSe : (splitFirst '/' sr).1 = [] <;>
              by_cases hPref : (splitFirst '/' sr).1.isPrefixOf image = true <;>
              simp [hPe, hRP, hSe, hPref]

theorem imageMatchesLoginPattern_cex :
    imageMatchesLoginPatternStr "app.k8s.io" "img" "*.io" = true ∧
    imageMatchesLoginPatternStr "k8s.io" "path/x" "k8s.io/path" = false := by
  decide

end Noe

